import Mathlib

/-!
# Kickoff task database: a shallow embedding

This file embeds the task-scheduling core of the Kickoff repository
(`Source/Kickoff/TaskDatabase.h` and its implementation file) in Lean 4 and
proves properties of the embedding.

Modelling conventions:
* `TaskID` (`uint64_t`) is modelled as `Nat`; resource tags (`std::string` /
  `PooledString`) as `String`; `std::time_t` as `Int` (it is a signed type and
  signedness matters for the zombie-timeout comparison).
* The shared, mutable `Task` objects co-owned by `m_allTasksByID` (a
  `std::map<TaskID, TaskPtr>`) and `m_pendingTasks` (a `std::set<TaskPtr>`)
  are modelled by keeping every task record inside an association list keyed
  by id; the pending set holds ids, and a mutation through a handle is a
  keyed update of the association list.  Iteration order of the containers is
  the list order.
* Wall-clock reads (`std::time(nullptr)`) become explicit `now : Int`
  parameters.
* The match score, computed in `float` in the source, is modelled in `ℚ`;
  the short-circuit constant `0.999f` becomes `999/1000` (both operands of
  the source's division are integers exactly representable in `float`, and
  the division is correctly rounded, so the `float` comparison with the
  `0.999f` literal agrees with the rational one at every input appearing in
  the theorems below).
-/

namespace Kickoff

set_option maxRecDepth 40000

abbrev TaskID := Nat
abbrev Resource := String

/-- `TaskRunStatus`: present iff the task has been dispatched to a worker. -/
structure TaskRunStatus where
  wasCanceled : Bool
  startTime : Int
  heartbeatTime : Int
deriving DecidableEq, Repr

/-- `TaskSchedule`: resource-tag requirements and preferences. -/
structure TaskSchedule where
  requiredResources : List Resource
  optionalResources : List Resource
deriving DecidableEq, Repr

/-- `TaskStatus`: creation time plus the optional run sub-record. -/
structure TaskStatus where
  createTime : Int
  runStatus : Option TaskRunStatus
deriving DecidableEq, Repr

/-- `TaskCreateInfo` as used by the implementation file: a command plus a
schedule. -/
structure TaskCreateInfo where
  command : String
  schedule : TaskSchedule
deriving DecidableEq, Repr

/-- The derived task states (`enum class TaskState`). -/
inductive TaskState where
  | Pending
  | Running
  | Canceling
deriving DecidableEq, Repr

/-- The `Task` record (id, command, schedule, status). -/
structure Task where
  id : TaskID
  command : String
  schedule : TaskSchedule
  status : TaskStatus
deriving DecidableEq, Repr

/-- `TaskStatus::getState`. -/
def TaskStatus.getState (s : TaskStatus) : TaskState :=
  match s.runStatus with
  | some rs => if rs.wasCanceled then TaskState.Canceling else TaskState.Running
  | none => TaskState.Pending

/-- `Task::markStarted`: installs a fresh run status if none is present. -/
def Task.markStarted (t : Task) (now : Int) : Task :=
  match t.status.runStatus with
  | some _ => t
  | none =>
      let rs : TaskRunStatus := { wasCanceled := false, startTime := now, heartbeatTime := now }
      { t with status := { t.status with runStatus := some rs } }

/-- `Task::markShouldCancel`: sets `wasCanceled` and reports whether a run
status was present. -/
def Task.markShouldCancel (t : Task) : Task × Bool :=
  match t.status.runStatus with
  | some rs =>
      ({ t with status := { t.status with runStatus := some { rs with wasCanceled := true } } },
       true)
  | none => (t, false)

/-- `Task::heartbeat`: refreshes `heartbeatTime` when a run status is
present. -/
def Task.heartbeat (t : Task) (now : Int) : Task :=
  match t.status.runStatus with
  | some rs =>
      { t with status := { t.status with runStatus := some { rs with heartbeatTime := now } } }
  | none => t

/-- `TaskStats`: the four counters.  The three live counters are C++ `int`s
(they are modelled unbounded; overflow would need on the order of `2^31`
operations), `numFinished` is a `uint64_t` counter. -/
structure TaskStats where
  numPending : Int
  numRunning : Int
  numCanceling : Int
  numFinished : Nat
deriving DecidableEq, Repr

/-- Lookup in `m_allTasksByID` (`std::map::find`). -/
def lookupTask (id : TaskID) : List (TaskID × Task) → Option Task
  | [] => none
  | p :: rest => if p.1 = id then some p.2 else lookupTask id rest

/-- Keyed insertion, `m_allTasksByID[id] = task` (replaces an existing
binding, otherwise adds one). -/
def insertTask (id : TaskID) (t : Task) : List (TaskID × Task) → List (TaskID × Task)
  | [] => [(id, t)]
  | p :: rest => if p.1 = id then (id, t) :: rest else p :: insertTask id t rest

/-- Keyed erasure, `m_allTasksByID.erase(id)` (a `std::map` holds at most one
binding per key). -/
def eraseTask (id : TaskID) : List (TaskID × Task) → List (TaskID × Task)
  | [] => []
  | p :: rest => if p.1 = id then rest else p :: eraseTask id rest

/-- In-place mutation of the shared `Task` object with key `id` (every alias
observes the update). -/
def mutateTask (id : TaskID) (f : Task → Task) (l : List (TaskID × Task)) :
    List (TaskID × Task) :=
  l.map (fun p => if p.1 = id then (p.1, f p.2) else p)

/-- `m_pendingTasks.erase` of one element of the set. -/
def erasePending (id : TaskID) : List TaskID → List TaskID
  | [] => []
  | x :: rest => if x = id then rest else x :: erasePending id rest

/-- The `TaskDatabase` state: the id-keyed task map, the pending set (as the
list of ids in iteration order) and the counters. -/
structure TaskDatabase where
  allTasksByID : List (TaskID × Task)
  pendingTasks : List TaskID
  stats : TaskStats
deriving DecidableEq, Repr

/-- The freshly constructed database (all counters zero, no tasks). -/
def initDB : TaskDatabase :=
  { allTasksByID := []
    pendingTasks := []
    stats := { numPending := 0, numRunning := 0, numCanceling := 0, numFinished := 0 } }

/-- `TaskDatabase::getTaskByID`. -/
def TaskDatabase.getTaskByID (db : TaskDatabase) (id : TaskID) : Option Task :=
  lookupTask id db.allTasksByID

/-- `TaskDatabase::getTasksByStates`. -/
def TaskDatabase.getTasksByStates (db : TaskDatabase) (states : List TaskState) :
    List Task :=
  db.allTasksByID.filterMap fun p =>
    if p.2.status.getState ∈ states then some p.2 else none

/-- `TaskDatabase::getTotalTaskCount`. -/
def TaskDatabase.getTotalTaskCount (db : TaskDatabase) : Nat :=
  db.allTasksByID.length

/-- `TaskDatabase::createTask` with the freshly sampled id made explicit
(in the source it comes from `getUnusedTaskID`). -/
def TaskDatabase.createTask (db : TaskDatabase) (id : TaskID) (info : TaskCreateInfo)
    (now : Int) : TaskDatabase × Task :=
  let task : Task :=
    { id := id
      command := info.command
      schedule := info.schedule
      status := { createTime := now, runStatus := none } }
  ({ db with
      allTasksByID := insertTask id task db.allTasksByID
      pendingTasks := db.pendingTasks ++ [id]
      stats := { db.stats with numPending := db.stats.numPending + 1 } },
   task)

/-- The eligibility test and score of `TaskDatabase::takeTaskToRun`'s loop
body: `none` when some required resource is missing, otherwise the fraction
of matched optional resources (0 when there are none). -/
def scoreOf (haveRes : List Resource) (sched : TaskSchedule) : Option ℚ :=
  if sched.requiredResources.all (fun r => r ∈ haveRes) then
    some (if 0 < sched.optionalResources.length then
            (sched.optionalResources.countP (fun r => decide (r ∈ haveRes)) : ℚ) /
              (sched.optionalResources.length : ℚ)
          else 0)
  else none

/-- The score of the task with id `id` in `db`, when it is live and
eligible. -/
def eligScore (db : TaskDatabase) (haveRes : List Resource) (id : TaskID) : Option ℚ :=
  (db.getTaskByID id).bind fun t => scoreOf haveRes t.schedule

/-- The search loop of `TaskDatabase::takeTaskToRun`: iterate the pending
set, keep the best strictly-improving score, break out early at score
`≥ 999/1000`. -/
def searchPending (db : TaskDatabase) (haveRes : List Resource) :
    List TaskID → Option TaskID → ℚ → Option TaskID
  | [], best, _ => best
  | id :: rest, best, bestScore =>
    match eligScore db haveRes id with
    | none => searchPending db haveRes rest best bestScore
    | some score =>
      if bestScore < score then
        if 999/1000 ≤ score then some id
        else searchPending db haveRes rest (some id) score
      else searchPending db haveRes rest best bestScore

/-- `TaskDatabase::takeTaskToRun`. -/
def TaskDatabase.takeTaskToRun (db : TaskDatabase) (haveRes : List Resource)
    (now : Int) : TaskDatabase × Option Task :=
  match searchPending db haveRes db.pendingTasks none (-1) with
  | none => (db, none)
  | some id =>
    match db.getTaskByID id with
    | none => (db, none)
    | some task =>
      let task' := task.markStarted now
      ({ db with
          pendingTasks := erasePending id db.pendingTasks
          allTasksByID := mutateTask id (fun t => t.markStarted now) db.allTasksByID
          stats := { db.stats with
                      numPending := db.stats.numPending - 1
                      numRunning := db.stats.numRunning + 1 } },
       some task')

/-- `TaskDatabase::heartbeatTask` (the handle is the live object, so the
update happens through the task's key). -/
def TaskDatabase.heartbeatTask (db : TaskDatabase) (id : TaskID) (now : Int) :
    TaskDatabase :=
  { db with allTasksByID := mutateTask id (fun t => t.heartbeat now) db.allTasksByID }

/-- `TaskDatabase::markTaskFinished`, applied to a handle `task` (the
counter decrement inspects the handle's run status, as the source does). -/
def TaskDatabase.markTaskFinished (db : TaskDatabase) (task : Task) : TaskDatabase :=
  let stats :=
    match task.status.runStatus with
    | some rs =>
        if rs.wasCanceled then { db.stats with numCanceling := db.stats.numCanceling - 1 }
        else { db.stats with numRunning := db.stats.numRunning - 1 }
    | none => { db.stats with numPending := db.stats.numPending - 1 }
  { db with
      stats := { stats with numFinished := stats.numFinished + 1 }
      pendingTasks := erasePending task.id db.pendingTasks
      allTasksByID := eraseTask task.id db.allTasksByID }

/-- `TaskDatabase::markTaskShouldCancel`, applied to a handle `task`. -/
def TaskDatabase.markTaskShouldCancel (db : TaskDatabase) (task : Task) : TaskDatabase :=
  if (task.markShouldCancel).2 then
    { db with
        allTasksByID := mutateTask task.id (fun t => (t.markShouldCancel).1) db.allTasksByID
        stats := { db.stats with
                    numRunning := db.stats.numRunning - 1
                    numCanceling := db.stats.numCanceling + 1 } }
  else
    db.markTaskFinished task

/-- The zombie test of `TaskDatabase::cleanupIfZombieTask`:
`now - heartbeatTime >= heartbeatTimeoutSeconds` for a task with a run
status. -/
def isZombie (t : Task) (timeout now : Int) : Bool :=
  match t.status.runStatus with
  | some rs => decide (timeout ≤ now - rs.heartbeatTime)
  | none => false

/-- `TaskDatabase::cleanupIfZombieTask`. -/
def TaskDatabase.cleanupIfZombieTask (db : TaskDatabase) (task : Task)
    (timeout now : Int) : TaskDatabase × Bool :=
  if isZombie task timeout now then (db.markTaskFinished task, true) else (db, false)

/-- The iteration of `TaskDatabase::cleanupZombieTasks` over the entries of
`m_allTasksByID` as they were when the loop started. -/
def cleanupLoop (timeout now : Int) :
    List (TaskID × Task) → TaskDatabase → TaskDatabase
  | [], db => db
  | p :: rest, db => cleanupLoop timeout now rest (db.cleanupIfZombieTask p.2 timeout now).1

/-- `TaskDatabase::cleanupZombieTasks`. -/
def TaskDatabase.cleanupZombieTasks (db : TaskDatabase) (timeout now : Int) :
    TaskDatabase :=
  cleanupLoop timeout now db.allTasksByID db

/-! ## Sequences of database operations

The mutating entry points as the server invokes them: a task handle is
obtained by id lookup immediately before the call (so the handle is the
current live object), and a call with a stale id is a no-op.  For `create`,
the sampled id is an explicit argument and a colliding sample leaves the
database unchanged, mirroring `getUnusedTaskID`'s rejection of used ids. -/

inductive DBOp where
  | create (id : TaskID) (info : TaskCreateInfo) (now : Int)
  | take (haveRes : List Resource) (now : Int)
  | heartbeat (id : TaskID) (now : Int)
  | finish (id : TaskID)
  | cancel (id : TaskID)
  | cleanup (timeout : Int) (now : Int)
deriving DecidableEq, Repr

/-- Apply one operation to the database. -/
def DBOp.apply (op : DBOp) (db : TaskDatabase) : TaskDatabase :=
  match op with
  | .create id info now =>
      if (db.getTaskByID id).isSome then db else (db.createTask id info now).1
  | .take haveRes now => (db.takeTaskToRun haveRes now).1
  | .heartbeat id now =>
      match db.getTaskByID id with
      | some _ => db.heartbeatTask id now
      | none => db
  | .finish id =>
      match db.getTaskByID id with
      | some t => db.markTaskFinished t
      | none => db
  | .cancel id =>
      match db.getTaskByID id with
      | some t => db.markTaskShouldCancel t
      | none => db
  | .cleanup timeout now => db.cleanupZombieTasks timeout now

/-- Apply a sequence of operations. -/
def applyOps (ops : List DBOp) (db : TaskDatabase) : TaskDatabase :=
  ops.foldl (fun d op => op.apply d) db

/-- The number of `markTaskFinished` invocations (direct, from a
cancellation of a pending task, or from the zombie reaper) that one
operation performs on `db`. -/
def DBOp.finishCount (op : DBOp) (db : TaskDatabase) : Nat :=
  match op with
  | .create _ _ _ => 0
  | .take _ _ => 0
  | .heartbeat _ _ => 0
  | .finish id => if (db.getTaskByID id).isSome then 1 else 0
  | .cancel id =>
      match db.getTaskByID id with
      | some t => if t.status.runStatus.isSome then 0 else 1
      | none => 0
  | .cleanup timeout now => db.allTasksByID.countP (fun p => isZombie p.2 timeout now)

/-- The number of `markTaskFinished` invocations a sequence of operations
performs, starting from `db`. -/
def finishCalls (ops : List DBOp) (db : TaskDatabase) : Nat :=
  match ops with
  | [] => 0
  | op :: rest => op.finishCount db + finishCalls rest (op.apply db)

/-- Structural well-formedness of a database state: unique keys, a
duplicate-free pending set whose members are exactly the live tasks without
a run status, and entries keyed by their task's own id.  It holds for the
fresh database and is preserved by every operation. -/
def WF (db : TaskDatabase) : Prop :=
  (db.allTasksByID.map Prod.fst).Nodup ∧
  db.pendingTasks.Nodup ∧
  (∀ p ∈ db.allTasksByID, p.2.id = p.1) ∧
  (∀ id ∈ db.pendingTasks,
    (db.getTaskByID id).map (fun t => t.status.runStatus) = some none) ∧
  (∀ p ∈ db.allTasksByID, p.2.status.runStatus = none → p.1 ∈ db.pendingTasks)

instance (db : TaskDatabase) : Decidable (WF db) := by
  unfold WF; infer_instance

/-- The number of live tasks whose `runStatus` is present. -/
def runStatusCount (db : TaskDatabase) : Nat :=
  db.allTasksByID.countP (fun p => p.2.status.runStatus.isSome)

/-! ## `getUnusedTaskID`

The rejection-sampling loop, with the stream of `fastRand64` samples made
explicit (`first` is the sample drawn before the loop, `samples` the ones
drawn inside it; an exhausted stream models an endlessly colliding PRNG and
yields `none`).  The loop body's diagnostics are recorded as events: after
incrementing `sanityCount` the source warns when `sanityCount > 10` and
otherwise — in the `else` branch of that very test — calls `fail` when
`sanityCount > 1000`. -/

inductive IDEvent where
  | warn
  | fatal
deriving DecidableEq, Repr

/-- The `while` loop of `TaskDatabase::getUnusedTaskID`. -/
def getUnusedTaskIDLoop (used : TaskID → Bool) (samples : List TaskID)
    (current : TaskID) (sanityCount : Nat) : List IDEvent × Option TaskID :=
  if used current then
    match samples with
    | [] => ([], none)
    | next :: rest =>
      let c := sanityCount + 1
      let evs : List IDEvent :=
        if c > 10 then [IDEvent.warn]
        else if c > 1000 then [IDEvent.fatal]
        else []
      let r := getUnusedTaskIDLoop used rest next c
      (evs ++ r.1, r.2)
  else ([], some current)

/-- `TaskDatabase::getUnusedTaskID`, with `used id` standing for
`getTaskByID(id)` being non-null. -/
def getUnusedTaskID (used : TaskID → Bool) (first : TaskID)
    (samples : List TaskID) : List IDEvent × Option TaskID :=
  getUnusedTaskIDLoop used samples first 0

/-! ## Server-side wrappers that are not part of the database source -/

/-- Modelled from the spec: the server-side handler for `GetTasksByStates`
(the `TaskServer` source is not part of the repository snapshot; per the
spec the operation "must fail when total task count exceeds a threshold"
with a distinct overflow signal, and otherwise returns the database query
result). -/
def serverGetTasksByStates (threshold : Nat) (db : TaskDatabase)
    (states : List TaskState) : Option (List Task) :=
  if threshold < db.getTotalTaskCount then none
  else some (db.getTasksByStates states)

/-- Modelled from the spec: the server-side handler for `MarkShouldCancel`
(the `TaskServer` source is not part of the repository snapshot; per the
spec the operation "returns false when task is absent", and otherwise
invokes `TaskDatabase::markTaskShouldCancel` on the live handle). -/
def serverMarkTaskShouldCancel (db : TaskDatabase) (id : TaskID) :
    TaskDatabase × Bool :=
  match db.getTaskByID id with
  | none => (db, false)
  | some t => (db.markTaskShouldCancel t, true)

/-! ## Basic lemmas about the container model -/

/-- The key list of the task map. -/
def keys (l : List (TaskID × Task)) : List TaskID := l.map Prod.fst

theorem keys_cons {p : TaskID × Task} {l : List (TaskID × Task)} :
    keys (p :: l) = p.1 :: keys l := rfl

theorem keys_append {l₁ l₂ : List (TaskID × Task)} :
    keys (l₁ ++ l₂) = keys l₁ ++ keys l₂ := List.map_append _ _ _

theorem mem_keys {id : TaskID} {l : List (TaskID × Task)} :
    id ∈ keys l ↔ ∃ t, (id, t) ∈ l := by
  unfold keys
  rw [List.mem_map]
  constructor
  · rintro ⟨⟨a, b⟩, hm, rfl⟩
    exact ⟨b, hm⟩
  · rintro ⟨t, ht⟩
    exact ⟨(id, t), ht, rfl⟩

theorem lookupTask_eq_none_iff {id : TaskID} {l : List (TaskID × Task)} :
    lookupTask id l = none ↔ id ∉ keys l := by
  induction l with
  | nil => simp [lookupTask, keys]
  | cons p rest ih =>
    obtain ⟨a, b⟩ := p
    by_cases hp : a = id
    · subst hp
      simp [lookupTask, keys]
    · have hp' : ¬ id = a := fun e => hp e.symm
      simp [lookupTask, keys, hp, hp'] at ih ⊢
      exact ih

theorem lookupTask_mem {id : TaskID} {t : Task} {l : List (TaskID × Task)}
    (h : lookupTask id l = some t) : (id, t) ∈ l := by
  induction l with
  | nil => simp [lookupTask] at h
  | cons p rest ih =>
    obtain ⟨a, b⟩ := p
    by_cases hp : a = id
    · subst hp
      simp only [lookupTask, if_pos] at h
      injection h with h
      subst h
      exact List.mem_cons_self _ _
    · simp only [lookupTask, if_neg hp] at h
      exact List.mem_cons_of_mem _ (ih h)

/-- Decomposition of the map at the first occurrence of a key. -/
theorem lookupTask_decomp {id : TaskID} {t : Task} {l : List (TaskID × Task)}
    (h : lookupTask id l = some t) :
    ∃ l₁ l₂, l = l₁ ++ (id, t) :: l₂ ∧ id ∉ keys l₁ := by
  induction l with
  | nil => simp [lookupTask] at h
  | cons p rest ih =>
    obtain ⟨a, b⟩ := p
    by_cases hp : a = id
    · subst hp
      simp only [lookupTask, if_pos] at h
      injection h with h
      subst h
      exact ⟨[], rest, rfl, by simp [keys]⟩
    · simp only [lookupTask, if_neg hp] at h
      obtain ⟨l₁, l₂, rfl, h1⟩ := ih h
      refine ⟨(a, b) :: l₁, l₂, rfl, ?_⟩
      simp only [keys_cons, List.mem_cons, not_or]
      exact ⟨fun e => hp e.symm, h1⟩

theorem lookupTask_of_mem_nodup {id : TaskID} {t : Task} {l : List (TaskID × Task)}
    (hnd : (keys l).Nodup) (h : (id, t) ∈ l) : lookupTask id l = some t := by
  induction l with
  | nil => simp at h
  | cons p rest ih =>
    obtain ⟨a, b⟩ := p
    rw [keys_cons, List.nodup_cons] at hnd
    rcases List.mem_cons.mp h with h1 | h1
    · injection h1 with e1 e2
      subst e1
      subst e2
      simp only [lookupTask, if_pos]
    · have ha : ¬ a = id := by
        intro e
        subst e
        exact hnd.1 (mem_keys.mpr ⟨t, h1⟩)
      simp only [lookupTask, if_neg ha]
      exact ih hnd.2 h1

theorem lookupTask_append_left {id : TaskID} {l₁ l₂ : List (TaskID × Task)}
    (h : id ∉ keys l₁) : lookupTask id (l₁ ++ l₂) = lookupTask id l₂ := by
  induction l₁ with
  | nil => rfl
  | cons p rest ih =>
    obtain ⟨a, b⟩ := p
    simp only [keys_cons, List.mem_cons, not_or] at h
    simp only [List.cons_append, lookupTask]
    rw [if_neg (fun e : a = id => h.1 e.symm)]
    exact ih h.2

theorem lookupTask_insertTask_self {id : TaskID} {t : Task} {l : List (TaskID × Task)} :
    lookupTask id (insertTask id t l) = some t := by
  induction l with
  | nil => simp [insertTask, lookupTask]
  | cons p rest ih =>
    obtain ⟨a, b⟩ := p
    by_cases hp : a = id
    · simp only [insertTask, if_pos hp, lookupTask, if_pos]
    · simp only [insertTask, if_neg hp, lookupTask, if_neg hp]
      exact ih

theorem lookupTask_insertTask_ne {id id' : TaskID} {t : Task} {l : List (TaskID × Task)}
    (h : id' ≠ id) : lookupTask id' (insertTask id t l) = lookupTask id' l := by
  have hid : ¬ id = id' := fun e => h e.symm
  induction l with
  | nil => simp only [insertTask, lookupTask, if_neg hid]
  | cons p rest ih =>
    obtain ⟨a, b⟩ := p
    by_cases hp : a = id
    · have ha : ¬ a = id' := fun e => hid (hp ▸ e)
      simp only [insertTask, if_pos hp, lookupTask, if_neg hid, if_neg ha]
    · simp only [insertTask, if_neg hp, lookupTask]
      by_cases hq : a = id'
      · rw [if_pos hq, if_pos hq]
      · rw [if_neg hq, if_neg hq]
        exact ih

theorem insertTask_of_not_mem {id : TaskID} {t : Task} {l : List (TaskID × Task)}
    (h : id ∉ keys l) : insertTask id t l = l ++ [(id, t)] := by
  induction l with
  | nil => rfl
  | cons p rest ih =>
    obtain ⟨a, b⟩ := p
    simp only [keys_cons, List.mem_cons, not_or] at h
    simp only [insertTask, List.cons_append]
    rw [if_neg (fun e : a = id => h.1 e.symm), ih h.2]

theorem keys_eraseTask_sublist {k : TaskID} {l : List (TaskID × Task)} :
    List.Sublist (keys (eraseTask k l)) (keys l) := by
  induction l with
  | nil => simp [eraseTask, keys]
  | cons p rest ih =>
    obtain ⟨a, b⟩ := p
    by_cases hp : a = k
    · simp only [eraseTask, if_pos hp, keys_cons]
      exact List.sublist_cons_self _ _
    · simp only [eraseTask, if_neg hp, keys_cons]
      exact ih.cons₂ a

theorem keys_eraseTask_nodup {k : TaskID} {l : List (TaskID × Task)}
    (h : (keys l).Nodup) : (keys (eraseTask k l)).Nodup :=
  h.sublist keys_eraseTask_sublist

theorem eraseTask_of_not_mem {k : TaskID} {l : List (TaskID × Task)}
    (h : k ∉ keys l) : eraseTask k l = l := by
  induction l with
  | nil => rfl
  | cons p rest ih =>
    obtain ⟨a, b⟩ := p
    simp only [keys_cons, List.mem_cons, not_or] at h
    simp only [eraseTask]
    rw [if_neg (fun e : a = k => h.1 e.symm), ih h.2]

theorem eraseTask_append_left {k : TaskID} {l₁ l₂ : List (TaskID × Task)}
    (h : k ∉ keys l₁) : eraseTask k (l₁ ++ l₂) = l₁ ++ eraseTask k l₂ := by
  induction l₁ with
  | nil => rfl
  | cons p rest ih =>
    obtain ⟨a, b⟩ := p
    simp only [keys_cons, List.mem_cons, not_or] at h
    simp only [List.cons_append, eraseTask]
    rw [if_neg (fun e : a = k => h.1 e.symm)]
    exact congrArg (List.cons (a, b)) (ih h.2)

theorem eraseTask_decomp {k : TaskID} {t : Task} {l₁ l₂ : List (TaskID × Task)}
    (h : k ∉ keys l₁) : eraseTask k (l₁ ++ (k, t) :: l₂) = l₁ ++ l₂ := by
  rw [eraseTask_append_left h]
  simp [eraseTask]

theorem lookupTask_eraseTask_ne {k id : TaskID} {l : List (TaskID × Task)}
    (h : k ≠ id) : lookupTask id (eraseTask k l) = lookupTask id l := by
  induction l with
  | nil => rfl
  | cons p rest ih =>
    obtain ⟨a, b⟩ := p
    by_cases hp : a = k
    · have ha : ¬ a = id := fun e => h (hp ▸ e)
      simp only [eraseTask, if_pos hp, lookupTask, if_neg ha]
    · simp only [eraseTask, if_neg hp, lookupTask]
      by_cases hq : a = id
      · rw [if_pos hq, if_pos hq]
      · rw [if_neg hq, if_neg hq]
        exact ih

theorem lookupTask_eraseTask_self {k : TaskID} {l : List (TaskID × Task)}
    (hnd : (keys l).Nodup) : lookupTask k (eraseTask k l) = none := by
  rcases h : lookupTask k l with _ | t
  · rw [eraseTask_of_not_mem (lookupTask_eq_none_iff.mp h)]
    exact h
  · obtain ⟨l₁, l₂, rfl, h1⟩ := lookupTask_decomp h
    rw [eraseTask_decomp h1, lookupTask_eq_none_iff, keys_append]
    intro hmem
    rcases List.mem_append.mp hmem with hm | hm
    · exact h1 hm
    · rw [keys_append, keys_cons] at hnd
      have h2 := (List.nodup_append.mp hnd).2.1
      exact (List.nodup_cons.mp h2).1 hm

theorem keys_mutateTask {id : TaskID} {f : Task → Task} {l : List (TaskID × Task)} :
    keys (mutateTask id f l) = keys l := by
  induction l with
  | nil => rfl
  | cons p rest ih =>
    obtain ⟨a, b⟩ := p
    simp only [mutateTask, List.map_cons] at ih ⊢
    by_cases hp : a = id
    · simp only [if_pos hp, keys_cons, ih]
    · simp only [if_neg hp, keys_cons, ih]

theorem lookupTask_mutateTask_self {id : TaskID} {f : Task → Task}
    {l : List (TaskID × Task)} :
    lookupTask id (mutateTask id f l) = (lookupTask id l).map f := by
  induction l with
  | nil => rfl
  | cons p rest ih =>
    obtain ⟨a, b⟩ := p
    simp only [mutateTask, List.map_cons] at ih ⊢
    by_cases hp : a = id
    · simp only [if_pos hp, lookupTask, hp, if_pos]
      rfl
    · simp only [if_neg hp, lookupTask, if_neg hp]
      exact ih

theorem lookupTask_mutateTask_ne {id id' : TaskID} {f : Task → Task}
    {l : List (TaskID × Task)} (h : id' ≠ id) :
    lookupTask id' (mutateTask id f l) = lookupTask id' l := by
  induction l with
  | nil => rfl
  | cons p rest ih =>
    obtain ⟨a, b⟩ := p
    simp only [mutateTask, List.map_cons] at ih ⊢
    by_cases hp : a = id
    · have ha : ¬ a = id' := fun e => h (e ▸ hp ▸ rfl : id' = id)
      simp only [if_pos hp, lookupTask, if_neg ha]
      exact ih
    · simp only [if_neg hp, lookupTask]
      by_cases hq : a = id'
      · rw [if_pos hq, if_pos hq]
      · rw [if_neg hq, if_neg hq]
        exact ih

theorem mutateTask_of_not_mem {id : TaskID} {f : Task → Task} {l : List (TaskID × Task)}
    (h : id ∉ keys l) : mutateTask id f l = l := by
  induction l with
  | nil => rfl
  | cons p rest ih =>
    obtain ⟨a, b⟩ := p
    simp only [keys_cons, List.mem_cons, not_or] at h
    simp only [mutateTask, List.map_cons]
    rw [if_neg (fun e : a = id => h.1 e.symm)]
    have e2 : mutateTask id f rest = rest := ih h.2
    simp only [mutateTask] at e2
    rw [e2]

theorem mutateTask_decomp {id : TaskID} {f : Task → Task} {t : Task}
    {l₁ l₂ : List (TaskID × Task)} (h1 : id ∉ keys l₁) :
    mutateTask id f (l₁ ++ (id, t) :: l₂) = l₁ ++ (id, f t) :: mutateTask id f l₂ := by
  have e1 : mutateTask id f l₁ = l₁ := mutateTask_of_not_mem h1
  simp only [mutateTask, List.map_append, List.map_cons] at e1 ⊢
  rw [e1]
  simp

theorem mem_erasePending {x k : TaskID} {p : List TaskID}
    (h : x ∈ erasePending k p) : x ∈ p := by
  induction p with
  | nil => simp [erasePending] at h
  | cons y rest ih =>
    by_cases hy : y = k
    · simp only [erasePending, if_pos hy] at h
      exact List.mem_cons_of_mem _ h
    · simp only [erasePending, if_neg hy] at h
      rcases List.mem_cons.mp h with h | h
      · exact h ▸ List.mem_cons_self _ _
      · exact List.mem_cons_of_mem _ (ih h)

theorem erasePending_of_not_mem {k : TaskID} {p : List TaskID}
    (h : k ∉ p) : erasePending k p = p := by
  induction p with
  | nil => rfl
  | cons y rest ih =>
    simp at h
    simp only [erasePending]
    rw [if_neg (fun e : y = k => h.1 e.symm), ih h.2]

theorem erasePending_append_left {k : TaskID} {p₁ p₂ : List TaskID}
    (h : k ∉ p₁) : erasePending k (p₁ ++ p₂) = p₁ ++ erasePending k p₂ := by
  induction p₁ with
  | nil => rfl
  | cons y rest ih =>
    simp at h
    simp only [List.cons_append, erasePending]
    rw [if_neg (fun e : y = k => h.1 e.symm)]
    exact congrArg (List.cons y) (ih h.2)

theorem erasePending_decomp {k : TaskID} {p₁ p₂ : List TaskID} (h : k ∉ p₁) :
    erasePending k (p₁ ++ k :: p₂) = p₁ ++ p₂ := by
  rw [erasePending_append_left h]
  simp [erasePending]

theorem erasePending_sublist {k : TaskID} {p : List TaskID} :
    List.Sublist (erasePending k p) p := by
  induction p with
  | nil => simp [erasePending]
  | cons y rest ih =>
    by_cases hy : y = k
    · simp only [erasePending, if_pos hy]
      exact List.sublist_cons_self _ _
    · simp only [erasePending, if_neg hy]
      exact ih.cons₂ y

theorem erasePending_nodup {k : TaskID} {p : List TaskID} (h : p.Nodup) :
    (erasePending k p).Nodup :=
  h.sublist erasePending_sublist

theorem mem_erasePending_of_ne {x k : TaskID} {p : List TaskID}
    (hx : x ∈ p) (hne : x ≠ k) : x ∈ erasePending k p := by
  induction p with
  | nil => simp at hx
  | cons y rest ih =>
    by_cases hy : y = k
    · simp only [erasePending, if_pos hy]
      rcases List.mem_cons.mp hx with h | h
      · exact absurd (h.trans hy) hne
      · exact h
    · simp only [erasePending, if_neg hy]
      rcases List.mem_cons.mp hx with h | h
      · exact h ▸ List.mem_cons_self _ _
      · exact List.mem_cons_of_mem _ (ih h)

theorem not_mem_erasePending_self {k : TaskID} {p : List TaskID} (h : p.Nodup) :
    k ∉ erasePending k p := by
  induction p with
  | nil => simp [erasePending]
  | cons y rest ih =>
    rcases List.nodup_cons.mp h with ⟨h1, h2⟩
    by_cases hy : y = k
    · simp only [erasePending, if_pos hy]
      exact hy ▸ h1
    · simp only [erasePending, if_neg hy]
      intro hm
      rcases List.mem_cons.mp hm with hm | hm
      · exact hy hm.symm
      · exact ih h2 hm

theorem length_erasePending {k : TaskID} {p : List TaskID} (h : k ∈ p) :
    (erasePending k p).length + 1 = p.length := by
  induction p with
  | nil => simp at h
  | cons y rest ih =>
    by_cases hy : y = k
    · simp [erasePending, if_pos hy]
    · simp only [erasePending, if_neg hy, List.length_cons]
      rcases List.mem_cons.mp h with h1 | h1
      · exact absurd h1.symm hy
      · rw [← ih h1]

/-! ## Lemmas about the database operations -/

theorem mutateTask_fix {id : TaskID} {f : Task → Task} {l : List (TaskID × Task)} {t : Task}
    (hnd : (keys l).Nodup) (h : lookupTask id l = some t) (hf : f t = t) :
    mutateTask id f l = l := by
  obtain ⟨l₁, l₂, rfl, h1⟩ := lookupTask_decomp h
  rw [mutateTask_decomp h1, hf]
  have h2 : id ∉ keys l₂ := by
    rw [keys_append, keys_cons] at hnd
    have h3 := (List.nodup_append.mp hnd).2.1
    exact (List.nodup_cons.mp h3).1
  rw [mutateTask_of_not_mem h2]

theorem markTaskFinished_lookup_ne {db : TaskDatabase} {task : Task} {id : TaskID}
    (h : task.id ≠ id) :
    (db.markTaskFinished task).getTaskByID id = db.getTaskByID id := by
  simp only [TaskDatabase.markTaskFinished, TaskDatabase.getTaskByID]
  exact lookupTask_eraseTask_ne h

theorem cleanupLoop_lookup_preserved {timeout now : Int} {id : TaskID} :
    ∀ (entries : List (TaskID × Task)) (acc : TaskDatabase),
      (∀ p ∈ entries, isZombie p.2 timeout now = true → p.2.id ≠ id) →
      (cleanupLoop timeout now entries acc).getTaskByID id = acc.getTaskByID id := by
  intro entries
  induction entries with
  | nil =>
    intro acc _
    rfl
  | cons p rest ih =>
    intro acc h
    unfold cleanupLoop TaskDatabase.cleanupIfZombieTask
    by_cases hz : isZombie p.2 timeout now = true
    · simp only [if_pos hz]
      rw [ih _ (fun q hq => h q (List.mem_cons_of_mem _ hq))]
      exact markTaskFinished_lookup_ne (h p (List.mem_cons_self _ _) hz)
    · simp only [if_neg hz]
      exact ih _ (fun q hq => h q (List.mem_cons_of_mem _ hq))

/-! ## Claim C4: id allocation by rejection sampling -/

theorem getUnusedTaskIDLoop_no_fatal (used : TaskID → Bool) (samples : List TaskID) :
    ∀ (current : TaskID) (c : Nat),
      ((getUnusedTaskIDLoop used samples current c).1.count IDEvent.fatal) = 0 := by
  induction samples with
  | nil =>
    intro current c
    unfold getUnusedTaskIDLoop
    by_cases hu : used current = true
    · simp [hu]
    · simp [hu]
  | cons next rest ih =>
    intro current c
    unfold getUnusedTaskIDLoop
    by_cases hu : used current = true
    · simp only [if_pos hu, List.count_append]
      rw [ih next (c + 1)]
      by_cases h10 : c + 1 > 10
      · simp [h10]
      · have h1000 : ¬ (c + 1 > 1000) := by omega
        simp [h10, h1000]
    · simp [hu]

theorem getUnusedTaskIDLoop_returns_unused (used : TaskID → Bool) (samples : List TaskID) :
    ∀ (current : TaskID) (c : Nat),
      ((getUnusedTaskIDLoop used samples current c).2.all fun id => !(used id)) = true := by
  induction samples with
  | nil =>
    intro current c
    unfold getUnusedTaskIDLoop
    by_cases hu : used current = true
    · simp [hu]
    · simp [hu, Option.all]
  | cons next rest ih =>
    intro current c
    unfold getUnusedTaskIDLoop
    by_cases hu : used current = true
    · simp only [if_pos hu]
      exact ih next (c + 1)
    · simp [hu, Option.all]

/-- **C4.**  The rejection-sampling loop of `getUnusedTaskID` does return an
id that is unused whenever it returns at all, and it warns once collisions
accumulate — but the give-up-after-1000-collisions branch is dead code: the
`sanityCount > 1000` test sits in the `else` of the `sanityCount > 10` test,
so the fatal event can never be emitted, on any PRNG stream.  Concretely,
on a stream whose 1001 first samples (the used ids 0..1000) all collide,
the loop emits 991 warnings and no fatal error, keeps going, and returns
the unused id 5000 instead of terminating the process. -/
theorem C4_id_allocation_fatal_unreachable :
    (∀ (used : TaskID → Bool) (first : TaskID) (samples : List TaskID),
        ((getUnusedTaskID used first samples).1.count IDEvent.fatal) = 0) ∧
    (∀ (used : TaskID → Bool) (first : TaskID) (samples : List TaskID),
        ((getUnusedTaskID used first samples).2.all fun id => !(used id)) = true) ∧
    getUnusedTaskID (fun id => decide (id < 1001)) 0
        ((List.range 1000).map (fun n => n + 1) ++ [5000]) =
      (List.replicate 991 IDEvent.warn, some 5000) := by
  refine ⟨?_, ?_, ?_⟩
  · intro used first samples
    exact getUnusedTaskIDLoop_no_fatal used samples first 0
  · intro used first samples
    exact getUnusedTaskIDLoop_returns_unused used samples first 0
  · decide

/-! ## Claim C10: the reaper never removes a pending task -/

/-- **C10.**  `cleanupZombieTasks` never removes a task whose `runStatus` is
absent: whatever the timeout (even zero or negative) and whatever the task's
`createTime`, a pending task is still in the database, unchanged, after the
reaper runs. -/
theorem C10_cleanup_never_removes_pending (db : TaskDatabase) (timeout now : Int)
    (id : TaskID) (t : Task) (hwf : WF db)
    (h : db.getTaskByID id = some t) (hp : t.status.runStatus = none) :
    (db.cleanupZombieTasks timeout now).getTaskByID id = some t := by
  obtain ⟨hnd, _, hids, _, _⟩ := hwf
  unfold TaskDatabase.cleanupZombieTasks
  have hside : ∀ p ∈ db.allTasksByID, isZombie p.2 timeout now = true → p.2.id ≠ id := by
    intro p hmem hz hid
    have hkey : p.1 = id := by rw [← hids p hmem]; exact hid
    have hlp : lookupTask id db.allTasksByID = some p.2 := by
      rw [← hkey]
      exact lookupTask_of_mem_nodup hnd hmem
    have hpt : p.2 = t := by
      have := hlp.symm.trans h
      injection this
    rw [hpt] at hz
    simp [isZombie, hp] at hz
  rw [cleanupLoop_lookup_preserved db.allTasksByID db hside]
  exact h

/-- A pending task with an old `createTime`, live in a small database. -/
def cexPendingTask : Task :=
  { id := 2, command := "queued",
    schedule := { requiredResources := ["GPU"], optionalResources := [] },
    status := { createTime := -5, runStatus := none } }

def cexPendingDB : TaskDatabase :=
  { allTasksByID := [(2, cexPendingTask)], pendingTasks := [2],
    stats := { numPending := 1, numRunning := 0, numCanceling := 0, numFinished := 0 } }

/-- **C10 witness.** -/
theorem C10_cleanup_never_removes_pending_witness :
    (cexPendingDB.cleanupZombieTasks 0 1000000).getTaskByID 2 = some cexPendingTask :=
  C10_cleanup_never_removes_pending cexPendingDB 0 1000000 2 cexPendingTask
    (by decide) (by decide) (by decide)

/-! ## Claim C6: heartbeatTask -/

/-- The behavior of `heartbeatTask` on a live handle `task`: if the task has
a run status (it is *Running* or *Canceling*), its `heartbeatTime` becomes
`now` — with its identity, command, schedule, `createTime`, `wasCanceled`
and `startTime` untouched — and nothing else about the database changes; if
the task is *Pending* (no run status) the call is a complete no-op. -/
def HeartbeatSpec (db : TaskDatabase) (task : Task) (now : Int) : Prop :=
  (task.status.runStatus = none → db.heartbeatTask task.id now = db) ∧
  (∀ rs, task.status.runStatus = some rs →
    (∃ t', (db.heartbeatTask task.id now).getTaskByID task.id = some t' ∧
      t'.id = task.id ∧ t'.command = task.command ∧ t'.schedule = task.schedule ∧
      t'.status.createTime = task.status.createTime ∧
      t'.status.runStatus = some { rs with heartbeatTime := now }) ∧
    (∀ id, id ≠ task.id →
      (db.heartbeatTask task.id now).getTaskByID id = db.getTaskByID id) ∧
    (db.heartbeatTask task.id now).pendingTasks = db.pendingTasks ∧
    (db.heartbeatTask task.id now).stats = db.stats)

/-- **C6 (amended).**  `heartbeatTask` refreshes `heartbeatTime` on every
task whose `runStatus` is present — the *Canceling* state included, not just
*Running* — and is a no-op exactly on *Pending* tasks. -/
theorem C6_heartbeat_amended (db : TaskDatabase) (task : Task) (now : Int)
    (hwf : WF db) (h : db.getTaskByID task.id = some task) :
    HeartbeatSpec db task now := by
  constructor
  · intro hp
    have hfix : Task.heartbeat task now = task := by
      unfold Task.heartbeat
      rw [hp]
    have hmut : mutateTask task.id (fun t => t.heartbeat now) db.allTasksByID
        = db.allTasksByID := mutateTask_fix hwf.1 h hfix
    unfold TaskDatabase.heartbeatTask
    rw [hmut]
  · intro rs hrs
    have hbeat : Task.heartbeat task now =
        { task with status := { task.status with runStatus := some { rs with heartbeatTime := now } } } := by
      unfold Task.heartbeat
      rw [hrs]
    refine ⟨⟨task.heartbeat now, ?_, by rw [hbeat], by rw [hbeat], by rw [hbeat],
        by rw [hbeat], by rw [hbeat]⟩, ?_, rfl, rfl⟩
    · have hL : lookupTask task.id db.allTasksByID = some task := h
      show lookupTask task.id (mutateTask task.id (fun t => t.heartbeat now) db.allTasksByID)
        = some (task.heartbeat now)
      rw [lookupTask_mutateTask_self, hL]
      rfl
    · intro id hid
      show lookupTask id (mutateTask task.id (fun t => t.heartbeat now) db.allTasksByID)
        = lookupTask id db.allTasksByID
      exact lookupTask_mutateTask_ne hid

/-- A live *Canceling* task (run status present, `wasCanceled` true). -/
def cexCancelingTask : Task :=
  { id := 1, command := "job",
    schedule := { requiredResources := [], optionalResources := [] },
    status := { createTime := 0,
                runStatus := some { wasCanceled := true, startTime := 0, heartbeatTime := 0 } } }

/-- `cexCancelingTask` after a heartbeat at time 5. -/
def cexCancelingTaskAfter : Task :=
  { id := 1, command := "job",
    schedule := { requiredResources := [], optionalResources := [] },
    status := { createTime := 0,
                runStatus := some { wasCanceled := true, startTime := 0, heartbeatTime := 5 } } }

def cexCancelingDB : TaskDatabase :=
  { allTasksByID := [(1, cexCancelingTask)], pendingTasks := [],
    stats := { numPending := 0, numRunning := 0, numCanceling := 1, numFinished := 0 } }

/-- **C6 counterexample.**  The claim says `heartbeatTask` is a no-op on
every task not in the *Running* state; on a *Canceling* task, however, the
code does update `heartbeatTime` (the source checks only that `runStatus`
is present, not that the state is *Running*). -/
theorem C6_heartbeat_canceling_counterexample :
    cexCancelingTask.status.getState = TaskState.Canceling ∧
    (cexCancelingDB.heartbeatTask 1 5).getTaskByID 1 = some cexCancelingTaskAfter ∧
    cexCancelingTaskAfter ≠ cexCancelingTask := by decide

/-- **C6 witness.** -/
theorem C6_heartbeat_amended_witness : HeartbeatSpec cexCancelingDB cexCancelingTask 5 :=
  C6_heartbeat_amended cexCancelingDB cexCancelingTask 5 (by decide) (by decide)

/-! ## Claim C7: markTaskShouldCancel -/

/-- The contract of `markTaskShouldCancel` dispatched by id: on a *Running*
task the task becomes *Canceling* (`wasCanceled` set) and the counters shift
running→canceling; on a *Pending* task the task is removed from the
database (and from the pending set) and counted as finished; an absent id
reports `false` and leaves the database unchanged. -/
def CancelSpec (db : TaskDatabase) (id : TaskID) : Prop :=
  (db.getTaskByID id = none → serverMarkTaskShouldCancel db id = (db, false)) ∧
  (∀ task rs, db.getTaskByID id = some task → task.status.runStatus = some rs →
    rs.wasCanceled = false →
    (serverMarkTaskShouldCancel db id).2 = true ∧
    (∃ t', (serverMarkTaskShouldCancel db id).1.getTaskByID id = some t' ∧
      t'.status.getState = TaskState.Canceling ∧
      t'.status.runStatus = some { rs with wasCanceled := true }) ∧
    (serverMarkTaskShouldCancel db id).1.stats.numRunning = db.stats.numRunning - 1 ∧
    (serverMarkTaskShouldCancel db id).1.stats.numCanceling = db.stats.numCanceling + 1 ∧
    (serverMarkTaskShouldCancel db id).1.stats.numPending = db.stats.numPending ∧
    (serverMarkTaskShouldCancel db id).1.stats.numFinished = db.stats.numFinished) ∧
  (∀ task, db.getTaskByID id = some task → task.status.runStatus = none →
    (serverMarkTaskShouldCancel db id).2 = true ∧
    (serverMarkTaskShouldCancel db id).1.getTaskByID id = none ∧
    id ∉ (serverMarkTaskShouldCancel db id).1.pendingTasks ∧
    (serverMarkTaskShouldCancel db id).1.stats.numPending = db.stats.numPending - 1 ∧
    (serverMarkTaskShouldCancel db id).1.stats.numFinished = db.stats.numFinished + 1 ∧
    (serverMarkTaskShouldCancel db id).1.stats.numRunning = db.stats.numRunning ∧
    (serverMarkTaskShouldCancel db id).1.stats.numCanceling = db.stats.numCanceling)

/-- **C7.**  The contract of `markTaskShouldCancel`: Running → Canceling
with the running/canceling counter shift; Pending → removed and counted
finished; absent → `false`. -/
theorem C7_markTaskShouldCancel_contract (db : TaskDatabase) (id : TaskID)
    (hwf : WF db) : CancelSpec db id := by
  obtain ⟨hnd, hpnd, hids, _, _⟩ := hwf
  refine ⟨?_, ?_, ?_⟩
  · intro h
    simp [serverMarkTaskShouldCancel, h]
  · intro task rs h hrs hwc
    have htid : task.id = id := hids (id, task) (lookupTask_mem h)
    have hms2 : (task.markShouldCancel).2 = true := by
      simp [Task.markShouldCancel, hrs]
    have hms1 : (task.markShouldCancel).1 =
        { task with status := { task.status with runStatus := some { rs with wasCanceled := true } } } := by
      simp [Task.markShouldCancel, hrs]
    have hserver : serverMarkTaskShouldCancel db id = (db.markTaskShouldCancel task, true) := by
      simp [serverMarkTaskShouldCancel, h]
    have hcancel : db.markTaskShouldCancel task =
        { db with
            allTasksByID := mutateTask task.id (fun t => (t.markShouldCancel).1) db.allTasksByID
            stats := { db.stats with
                        numRunning := db.stats.numRunning - 1
                        numCanceling := db.stats.numCanceling + 1 } } := by
      unfold TaskDatabase.markTaskShouldCancel
      rw [hms2]
      simp
    rw [hserver, hcancel]
    refine ⟨rfl, ⟨(task.markShouldCancel).1, ?_, ?_, ?_⟩, rfl, rfl, rfl, rfl⟩
    · have hL : lookupTask id db.allTasksByID = some task := h
      show lookupTask id (mutateTask task.id (fun t => (t.markShouldCancel).1) db.allTasksByID)
        = some (task.markShouldCancel).1
      rw [htid, lookupTask_mutateTask_self, hL]
      rfl
    · rw [hms1]
      simp [TaskStatus.getState]
    · rw [hms1]
  · intro task h hp
    have htid : task.id = id := hids (id, task) (lookupTask_mem h)
    have hms2 : (task.markShouldCancel).2 = false := by
      simp [Task.markShouldCancel, hp]
    have hserver : serverMarkTaskShouldCancel db id = (db.markTaskShouldCancel task, true) := by
      simp [serverMarkTaskShouldCancel, h]
    have hcancel : db.markTaskShouldCancel task = db.markTaskFinished task := by
      unfold TaskDatabase.markTaskShouldCancel
      rw [hms2]
      simp
    have hfin : db.markTaskFinished task =
        { db with
            stats := { db.stats with
                        numPending := db.stats.numPending - 1
                        numFinished := db.stats.numFinished + 1 }
            pendingTasks := erasePending task.id db.pendingTasks
            allTasksByID := eraseTask task.id db.allTasksByID } := by
      unfold TaskDatabase.markTaskFinished
      rw [hp]
    rw [hserver, hcancel, hfin]
    refine ⟨rfl, ?_, ?_, rfl, rfl, rfl, rfl⟩
    · show lookupTask id (eraseTask task.id db.allTasksByID) = none
      rw [htid]
      exact lookupTask_eraseTask_self hnd
    · show id ∉ erasePending task.id db.pendingTasks
      rw [htid]
      exact not_mem_erasePending_self hpnd

/-- A live *Running* task in a small database. -/
def cexRunningTask : Task :=
  { id := 3, command := "run",
    schedule := { requiredResources := [], optionalResources := [] },
    status := { createTime := 0,
                runStatus := some { wasCanceled := false, startTime := 10, heartbeatTime := 20 } } }

def cexRunningDB : TaskDatabase :=
  { allTasksByID := [(3, cexRunningTask)], pendingTasks := [],
    stats := { numPending := 0, numRunning := 1, numCanceling := 0, numFinished := 0 } }

/-- **C7 witness.** -/
theorem C7_markTaskShouldCancel_contract_witness : CancelSpec cexRunningDB 3 :=
  C7_markTaskShouldCancel_contract cexRunningDB 3 (by decide)

/-! ## Claim C5: capacity refusal of getTasksByStates -/

theorem mem_getTasksByStates {db : TaskDatabase} {states : List TaskState} {t : Task} :
    t ∈ db.getTasksByStates states ↔
      (∃ id, (id, t) ∈ db.allTasksByID) ∧ t.status.getState ∈ states := by
  unfold TaskDatabase.getTasksByStates
  rw [List.mem_filterMap]
  constructor
  · rintro ⟨⟨id, u⟩, hmem, hf⟩
    dsimp only at hf
    by_cases hs : u.status.getState ∈ states
    · rw [if_pos hs] at hf
      injection hf with hf
      subst hf
      exact ⟨⟨id, hmem⟩, hs⟩
    · rw [if_neg hs] at hf
      cases hf
  · rintro ⟨⟨id, hmem⟩, hs⟩
    refine ⟨(id, t), hmem, ?_⟩
    dsimp only
    rw [if_pos hs]

/-- `getTasksByStates` through the server wrapper: refusal happens exactly
when the live task count exceeds the threshold; below the threshold, the
returned list holds exactly the live tasks whose derived state is in the
queried set. -/
def CapacitySpec (threshold : Nat) (db : TaskDatabase) (states : List TaskState) : Prop :=
  (serverGetTasksByStates threshold db states = none ↔
    threshold < db.getTotalTaskCount) ∧
  (db.getTotalTaskCount < threshold →
    ∃ l, serverGetTasksByStates threshold db states = some l ∧
      ∀ t, t ∈ l ↔ ((∃ id, (id, t) ∈ db.allTasksByID) ∧ t.status.getState ∈ states))

/-- **C5.**  The list query fails with the distinct overflow signal exactly
when the live-task count exceeds the threshold, and below the threshold it
returns precisely the live tasks whose derived state is queried. -/
theorem C5_getTasksByStates_capacity (threshold : Nat) (db : TaskDatabase)
    (states : List TaskState) : CapacitySpec threshold db states := by
  constructor
  · unfold serverGetTasksByStates
    by_cases hth : threshold < db.getTotalTaskCount
    · simp [hth]
    · simp [hth]
  · intro hlt
    have hth : ¬ threshold < db.getTotalTaskCount := by omega
    refine ⟨db.getTasksByStates states, ?_, fun t => mem_getTasksByStates⟩
    unfold serverGetTasksByStates
    rw [if_neg hth]

/-- **C5 witness.** -/
theorem C5_getTasksByStates_capacity_witness :
    CapacitySpec 5 cexRunningDB [TaskState.Running] :=
  C5_getTasksByStates_capacity 5 cexRunningDB [TaskState.Running]

/-! ## Claim C2: the search loop of takeTaskToRun -/

theorem searchPending_nil {db : TaskDatabase} {haveRes : List Resource}
    {best : Option TaskID} {bs : ℚ} :
    searchPending db haveRes [] best bs = best := rfl

theorem searchPending_cons_none {db : TaskDatabase} {haveRes : List Resource}
    {id : TaskID} {rest : List TaskID} {best : Option TaskID} {bs : ℚ}
    (he : eligScore db haveRes id = none) :
    searchPending db haveRes (id :: rest) best bs =
      searchPending db haveRes rest best bs := by
  conv_lhs => rw [searchPending]
  rw [he]

theorem searchPending_cons_some {db : TaskDatabase} {haveRes : List Resource}
    {id : TaskID} {rest : List TaskID} {best : Option TaskID} {bs s : ℚ}
    (he : eligScore db haveRes id = some s) :
    searchPending db haveRes (id :: rest) best bs =
      if bs < s then
        (if 999/1000 ≤ s then some id else searchPending db haveRes rest (some id) s)
      else searchPending db haveRes rest best bs := by
  conv_lhs => rw [searchPending]
  rw [he]

theorem searchPending_ne_none {db : TaskDatabase} {haveRes : List Resource} :
    ∀ (l : List TaskID) (b : TaskID) (bs : ℚ),
      searchPending db haveRes l (some b) bs ≠ none := by
  intro l
  induction l with
  | nil =>
    intro b bs h
    rw [searchPending_nil] at h
    cases h
  | cons id rest ih =>
    intro b bs h
    rcases he : eligScore db haveRes id with _ | s
    · rw [searchPending_cons_none he] at h
      exact ih b bs h
    · rw [searchPending_cons_some he] at h
      by_cases h1 : bs < s
      · rw [if_pos h1] at h
        by_cases h2 : (999 : ℚ)/1000 ≤ s
        · rw [if_pos h2] at h
          cases h
        · rw [if_neg h2] at h
          exact ih id s h
      · rw [if_neg h1] at h
        exact ih b bs h

theorem scoreOf_nonneg {haveRes : List Resource} {sched : TaskSchedule} {s : ℚ}
    (h : scoreOf haveRes sched = some s) : 0 ≤ s := by
  unfold scoreOf at h
  by_cases hreq : sched.requiredResources.all (fun r => decide (r ∈ haveRes)) = true
  · rw [if_pos hreq] at h
    injection h with h
    subst h
    by_cases hlen : 0 < sched.optionalResources.length
    · rw [if_pos hlen]
      apply div_nonneg
      · exact Nat.cast_nonneg _
      · exact Nat.cast_nonneg _
    · rw [if_neg hlen]
  · rw [if_neg hreq] at h
    cases h

theorem eligScore_nonneg {db : TaskDatabase} {haveRes : List Resource} {id : TaskID}
    {s : ℚ} (h : eligScore db haveRes id = some s) : 0 ≤ s := by
  unfold eligScore at h
  rcases hl : db.getTaskByID id with _ | t
  · rw [hl] at h
    cases h
  · rw [hl] at h
    exact scoreOf_nonneg h

theorem searchPending_none_of_all_none {db : TaskDatabase} {haveRes : List Resource} :
    ∀ (l : List TaskID) (bs : ℚ),
      (∀ j ∈ l, eligScore db haveRes j = none) →
      searchPending db haveRes l none bs = none := by
  intro l
  induction l with
  | nil =>
    intro bs _
    rfl
  | cons id rest ih =>
    intro bs hall
    rw [searchPending_cons_none (hall id (List.mem_cons_self _ _))]
    exact ih bs (fun j hj => hall j (List.mem_cons_of_mem _ hj))

theorem searchPending_all_none_of_none {db : TaskDatabase} {haveRes : List Resource} :
    ∀ (l : List TaskID) (bs : ℚ), bs < 0 →
      searchPending db haveRes l none bs = none →
      ∀ j ∈ l, eligScore db haveRes j = none := by
  intro l
  induction l with
  | nil =>
    intro bs _ _ j hj
    cases hj
  | cons id rest ih =>
    intro bs hbs h j hj
    rcases he : eligScore db haveRes id with _ | s
    · rw [searchPending_cons_none he] at h
      rcases List.mem_cons.mp hj with rfl | hj
      · exact he
      · exact ih bs hbs h j hj
    · rw [searchPending_cons_some he] at h
      have hlt : bs < s := lt_of_lt_of_le hbs (eligScore_nonneg he)
      rw [if_pos hlt] at h
      by_cases h2 : (999 : ℚ)/1000 ≤ s
      · rw [if_pos h2] at h
        cases h
      · rw [if_neg h2] at h
        exact absurd h (searchPending_ne_none rest id s)

/-- The invariant tying the best-so-far candidate to the best score. -/
def bsInv (db : TaskDatabase) (haveRes : List Resource) :
    Option TaskID → ℚ → Prop
  | none, bs => bs = -1
  | some b, bs => eligScore db haveRes b = some bs

/-- The central characterization of a successful search: the result `r` is
either the inherited best candidate dominating the whole list, or it sits at
a position of the list, every *earlier* eligible entry scores strictly less,
and every *later* eligible entry scores no more — unless the search
short-circuited at `999/1000 ≤ score`. -/
theorem searchPending_some_spec {db : TaskDatabase} {haveRes : List Resource} :
    ∀ (l : List TaskID) (best : Option TaskID) (bs : ℚ) (r : TaskID),
      bsInv db haveRes best bs →
      searchPending db haveRes l best bs = some r →
      (best = some r ∧ ∀ j ∈ l, ∀ s', eligScore db haveRes j = some s' → s' ≤ bs)
      ∨ (∃ sr l₁ l₂, eligScore db haveRes r = some sr ∧ l = l₁ ++ r :: l₂ ∧ bs < sr ∧
          (∀ j ∈ l₁, ∀ s', eligScore db haveRes j = some s' → s' < sr) ∧
          ((999 : ℚ)/1000 ≤ sr ∨
            ∀ j ∈ l₂, ∀ s', eligScore db haveRes j = some s' → s' ≤ sr)) := by
  intro l
  induction l with
  | nil =>
    intro best bs r _ h
    rw [searchPending_nil] at h
    left
    refine ⟨h, ?_⟩
    intro j hj
    cases hj
  | cons id rest ih =>
    intro best bs r hinv h
    rcases he : eligScore db haveRes id with _ | s
    · rw [searchPending_cons_none he] at h
      rcases ih best bs r hinv h with ⟨h1, h2⟩ | ⟨sr, l₁, l₂, h1, h2, h3, h4, h5⟩
      · left
        refine ⟨h1, ?_⟩
        intro j hj s' hs'
        rcases List.mem_cons.mp hj with rfl | hj
        · rw [he] at hs'
          cases hs'
        · exact h2 j hj s' hs'
      · right
        refine ⟨sr, id :: l₁, l₂, h1, by rw [h2, List.cons_append], h3, ?_, h5⟩
        intro j hj s' hs'
        rcases List.mem_cons.mp hj with rfl | hj
        · rw [he] at hs'
          cases hs'
        · exact h4 j hj s' hs'
    · rw [searchPending_cons_some he] at h
      by_cases hlt : bs < s
      · rw [if_pos hlt] at h
        by_cases hsc : (999 : ℚ)/1000 ≤ s
        · rw [if_pos hsc] at h
          injection h with h
          subst h
          right
          exact ⟨s, [], rest, he, rfl, hlt, by simp, Or.inl hsc⟩
        · rw [if_neg hsc] at h
          have hinv2 : bsInv db haveRes (some id) s := he
          rcases ih (some id) s r hinv2 h with ⟨h1, h2⟩ | ⟨sr, l₁, l₂, h1, h2, h3, h4, h5⟩
          · injection h1 with h1
            subst h1
            right
            refine ⟨s, [], rest, he, rfl, hlt, by simp, Or.inr ?_⟩
            intro j hj s' hs'
            exact h2 j hj s' hs'
          · right
            refine ⟨sr, id :: l₁, l₂, h1, by rw [h2, List.cons_append], lt_trans hlt h3, ?_, h5⟩
            intro j hj s' hs'
            rcases List.mem_cons.mp hj with rfl | hj
            · rw [he] at hs'
              injection hs' with hs'
              subst hs'
              exact h3
            · exact h4 j hj s' hs'
      · rw [if_neg hlt] at h
        rcases ih best bs r hinv h with ⟨h1, h2⟩ | ⟨sr, l₁, l₂, h1, h2, h3, h4, h5⟩
        · left
          refine ⟨h1, ?_⟩
          intro j hj s' hs'
          rcases List.mem_cons.mp hj with rfl | hj
          · rw [he] at hs'
            injection hs' with hs'
            subst hs'
            exact le_of_not_lt hlt
          · exact h2 j hj s' hs'
        · right
          refine ⟨sr, id :: l₁, l₂, h1, by rw [h2, List.cons_append], h3, ?_, h5⟩
          intro j hj s' hs'
          rcases List.mem_cons.mp hj with rfl | hj
          · rw [he] at hs'
            injection hs' with hs'
            subst hs'
            exact lt_of_le_of_lt (le_of_not_lt hlt) h3
          · exact h4 j hj s' hs'

/-- Specialization to the loop's real entry point (`best` empty, best score
`-1`): a successful search always yields the positional characterization. -/
theorem searchPending_entry_spec {db : TaskDatabase} {haveRes : List Resource}
    {r : TaskID} (h : searchPending db haveRes db.pendingTasks none (-1) = some r) :
    ∃ sr l₁ l₂, eligScore db haveRes r = some sr ∧
      db.pendingTasks = l₁ ++ r :: l₂ ∧
      (∀ j ∈ l₁, ∀ s', eligScore db haveRes j = some s' → s' < sr) ∧
      ((999 : ℚ)/1000 ≤ sr ∨
        ∀ j ∈ l₂, ∀ s', eligScore db haveRes j = some s' → s' ≤ sr) := by
  rcases searchPending_some_spec db.pendingTasks none (-1) r rfl h with
    ⟨h1, _⟩ | ⟨sr, l₁, l₂, h1, h2, _, h4, h5⟩
  · cases h1
  · exact ⟨sr, l₁, l₂, h1, h2, h4, h5⟩

/-! ## Small facts about the task mutators -/

theorem markStarted_id {t : Task} {now : Int} : (t.markStarted now).id = t.id := by
  unfold Task.markStarted
  rcases t.status.runStatus with _ | rs <;> rfl

theorem markStarted_schedule {t : Task} {now : Int} :
    (t.markStarted now).schedule = t.schedule := by
  unfold Task.markStarted
  rcases t.status.runStatus with _ | rs <;> rfl

theorem markStarted_isSome {t : Task} {now : Int} :
    ((t.markStarted now).status.runStatus).isSome = true := by
  unfold Task.markStarted
  rcases h : t.status.runStatus with _ | rs
  · rfl
  · simp [h]

theorem markStarted_of_none {t : Task} {now : Int} (h : t.status.runStatus = none) :
    t.markStarted now =
      { t with status := { t.status with
          runStatus := some { wasCanceled := false, startTime := now, heartbeatTime := now } } } := by
  unfold Task.markStarted
  rw [h]

theorem markStarted_of_some {t : Task} {now : Int} {rs : TaskRunStatus}
    (h : t.status.runStatus = some rs) : t.markStarted now = t := by
  unfold Task.markStarted
  rw [h]

theorem heartbeat_id {t : Task} {now : Int} : (t.heartbeat now).id = t.id := by
  unfold Task.heartbeat
  rcases t.status.runStatus with _ | rs <;> rfl

theorem heartbeat_isSome {t : Task} {now : Int} :
    ((t.heartbeat now).status.runStatus).isSome = t.status.runStatus.isSome := by
  unfold Task.heartbeat
  rcases h : t.status.runStatus with _ | rs
  · simp [h]
  · simp [h]

theorem heartbeat_of_none {t : Task} {now : Int} (h : t.status.runStatus = none) :
    t.heartbeat now = t := by
  unfold Task.heartbeat
  rw [h]

theorem markShouldCancel_fst_id {t : Task} : (t.markShouldCancel).1.id = t.id := by
  unfold Task.markShouldCancel
  rcases t.status.runStatus with _ | rs <;> rfl

theorem markShouldCancel_fst_isSome {t : Task} :
    ((t.markShouldCancel).1.status.runStatus).isSome = t.status.runStatus.isSome := by
  unfold Task.markShouldCancel
  rcases h : t.status.runStatus with _ | rs
  · simp [h]
  · simp [h]

theorem markShouldCancel_fst_of_none {t : Task} (h : t.status.runStatus = none) :
    (t.markShouldCancel).1 = t := by
  unfold Task.markShouldCancel
  rw [h]

theorem markShouldCancel_snd_true {t : Task} {rs : TaskRunStatus}
    (h : t.status.runStatus = some rs) : (t.markShouldCancel).2 = true := by
  unfold Task.markShouldCancel
  rw [h]

theorem markShouldCancel_snd_false {t : Task} (h : t.status.runStatus = none) :
    (t.markShouldCancel).2 = false := by
  unfold Task.markShouldCancel
  rw [h]

/-! ## Counting lemmas -/

theorem lookupTask_append_some {id : TaskID} {t : Task} {l₁ l₂ : List (TaskID × Task)}
    (h : lookupTask id l₁ = some t) : lookupTask id (l₁ ++ l₂) = some t := by
  induction l₁ with
  | nil => cases h
  | cons p rest ih =>
    obtain ⟨a, b⟩ := p
    by_cases hp : a = id
    · simp only [lookupTask, if_pos hp] at h
      simp only [List.cons_append, lookupTask, if_pos hp]
      exact h
    · simp only [lookupTask, if_neg hp] at h
      simp only [List.cons_append, lookupTask, if_neg hp]
      exact ih h

theorem mem_eraseTask {p : TaskID × Task} {k : TaskID} {l : List (TaskID × Task)}
    (h : p ∈ eraseTask k l) : p ∈ l := by
  induction l with
  | nil => simp [eraseTask] at h
  | cons q rest ih =>
    by_cases hq : q.1 = k
    · simp only [eraseTask, if_pos hq] at h
      exact List.mem_cons_of_mem _ h
    · simp only [eraseTask, if_neg hq] at h
      rcases List.mem_cons.mp h with h | h
      · exact h ▸ List.mem_cons_self _ _
      · exact List.mem_cons_of_mem _ (ih h)

theorem lookupTask_eraseTask_none {x k : TaskID} {l : List (TaskID × Task)}
    (h : lookupTask x l = none) : lookupTask x (eraseTask k l) = none := by
  by_cases hk : k = x
  · subst hk
    rw [eraseTask_of_not_mem (lookupTask_eq_none_iff.mp h)]
    exact h
  · rw [lookupTask_eraseTask_ne hk]
    exact h

theorem countP_eraseTask {r : TaskID} {l : List (TaskID × Task)} {t : Task}
    (hl : lookupTask r l = some t) (q : TaskID × Task → Bool) :
    (eraseTask r l).countP q + (if q (r, t) then 1 else 0) = l.countP q := by
  obtain ⟨l₁, l₂, rfl, h1⟩ := lookupTask_decomp hl
  rw [eraseTask_decomp h1]
  simp only [List.countP_append, List.countP_cons]
  omega

theorem length_eraseTask {r : TaskID} {l : List (TaskID × Task)} {t : Task}
    (hl : lookupTask r l = some t) : (eraseTask r l).length + 1 = l.length := by
  obtain ⟨l₁, l₂, rfl, h1⟩ := lookupTask_decomp hl
  rw [eraseTask_decomp h1]
  simp
  omega

theorem countP_mutateTask {r : TaskID} {f : Task → Task} {l : List (TaskID × Task)}
    {t : Task} (hnd : (keys l).Nodup) (hl : lookupTask r l = some t)
    (q : TaskID × Task → Bool) :
    (mutateTask r f l).countP q + (if q (r, t) then 1 else 0)
      = l.countP q + (if q (r, f t) then 1 else 0) := by
  obtain ⟨l₁, l₂, rfl, h1⟩ := lookupTask_decomp hl
  have h2 : r ∉ keys l₂ := by
    rw [keys_append, keys_cons] at hnd
    have h3 := (List.nodup_append.mp hnd).2.1
    exact (List.nodup_cons.mp h3).1
  rw [mutateTask_decomp h1, mutateTask_of_not_mem h2]
  simp only [List.countP_append, List.countP_cons]
  omega

theorem countP_mutateTask_of_preserved {id : TaskID} {f : Task → Task}
    {l : List (TaskID × Task)} {q : TaskID × Task → Bool}
    (h : ∀ (k : TaskID) (t : Task), q (k, f t) = q (k, t)) :
    (mutateTask id f l).countP q = l.countP q := by
  unfold mutateTask
  rw [List.countP_map]
  apply List.countP_congr
  intro p _
  by_cases hk : p.1 = id
  · simp only [Function.comp_apply, if_pos hk]
    rw [h p.1 p.2]
  · simp only [Function.comp_apply, if_neg hk]

theorem mem_mutateTask {p : TaskID × Task} {id : TaskID} {f : Task → Task}
    {l : List (TaskID × Task)} (h : p ∈ mutateTask id f l) :
    ∃ q ∈ l, p = if q.1 = id then (q.1, f q.2) else q := by
  unfold mutateTask at h
  rcases List.mem_map.mp h with ⟨q, hq, he⟩
  exact ⟨q, hq, he.symm⟩

/-! ## Preservation of well-formedness and counter consistency -/

/-- Counter consistency of a database state: `numPending` equals the size of
the pending set and `numRunning + numCanceling` equals the number of live
tasks with a run status. -/
def CountersOK (db : TaskDatabase) : Prop :=
  db.stats.numPending = (db.pendingTasks.length : Int) ∧
  db.stats.numRunning + db.stats.numCanceling = (runStatusCount db : Int)

theorem markTaskFinished_allTasks {db : TaskDatabase} {task : Task} :
    (db.markTaskFinished task).allTasksByID = eraseTask task.id db.allTasksByID := rfl

theorem markTaskFinished_pending {db : TaskDatabase} {task : Task} :
    (db.markTaskFinished task).pendingTasks = erasePending task.id db.pendingTasks := rfl

theorem markTaskFinished_stats_none {db : TaskDatabase} {task : Task}
    (h : task.status.runStatus = none) :
    (db.markTaskFinished task).stats.numPending = db.stats.numPending - 1 ∧
    (db.markTaskFinished task).stats.numRunning = db.stats.numRunning ∧
    (db.markTaskFinished task).stats.numCanceling = db.stats.numCanceling ∧
    (db.markTaskFinished task).stats.numFinished = db.stats.numFinished + 1 := by
  unfold TaskDatabase.markTaskFinished
  rw [h]
  exact ⟨rfl, rfl, rfl, rfl⟩

theorem markTaskFinished_stats_some {db : TaskDatabase} {task : Task} {rs : TaskRunStatus}
    (h : task.status.runStatus = some rs) :
    (db.markTaskFinished task).stats.numRunning + (db.markTaskFinished task).stats.numCanceling
      = db.stats.numRunning + db.stats.numCanceling - 1 ∧
    (db.markTaskFinished task).stats.numPending = db.stats.numPending ∧
    (db.markTaskFinished task).stats.numFinished = db.stats.numFinished + 1 := by
  unfold TaskDatabase.markTaskFinished
  rw [h]
  dsimp only
  by_cases hwc : rs.wasCanceled = true
  · rw [hwc, if_pos rfl]
    refine ⟨by ring, rfl, rfl⟩
  · rw [Bool.not_eq_true] at hwc
    rw [hwc, if_neg (by decide)]
    refine ⟨by ring, rfl, rfl⟩

/-- `markTaskFinished` on a live handle preserves well-formedness and
counter consistency, increments `numFinished` by one, and removes the task
from the database. -/
theorem markTaskFinished_preserves {db : TaskDatabase} {task : Task}
    (hwf : WF db) (hc : CountersOK db) (h : db.getTaskByID task.id = some task) :
    WF (db.markTaskFinished task) ∧ CountersOK (db.markTaskFinished task) ∧
      (db.markTaskFinished task).stats.numFinished = db.stats.numFinished + 1 ∧
      (db.markTaskFinished task).getTaskByID task.id = none := by
  obtain ⟨hnd, hpnd, hids, hp2n, hn2p⟩ := hwf
  obtain ⟨hcp, hcr⟩ := hc
  have hL : lookupTask task.id db.allTasksByID = some task := h
  have hwf2 : WF (db.markTaskFinished task) := by
    refine ⟨?_, ?_, ?_, ?_, ?_⟩
    · rw [markTaskFinished_allTasks]
      show (keys (eraseTask task.id db.allTasksByID)).Nodup
      exact keys_eraseTask_nodup hnd
    · rw [markTaskFinished_pending]
      exact erasePending_nodup hpnd
    · intro p hp
      rw [markTaskFinished_allTasks] at hp
      exact hids p (mem_eraseTask hp)
    · intro j hj
      rw [markTaskFinished_pending] at hj
      have hj1 := mem_erasePending hj
      have hjne : task.id ≠ j := by
        intro e
        exact not_mem_erasePending_self hpnd (e ▸ hj)
      show (lookupTask j (eraseTask task.id db.allTasksByID)).map
          (fun t => t.status.runStatus) = some none
      rw [lookupTask_eraseTask_ne hjne]
      exact hp2n j hj1
    · intro p hp hpnone
      rw [markTaskFinished_allTasks] at hp
      rw [markTaskFinished_pending]
      have hpl := mem_eraseTask hp
      have hne : p.1 ≠ task.id := by
        intro e
        have hm : p.1 ∈ keys (eraseTask task.id db.allTasksByID) := mem_keys.mpr ⟨p.2, hp⟩
        rw [e] at hm
        exact (lookupTask_eq_none_iff.mp (lookupTask_eraseTask_self hnd)) hm
      exact mem_erasePending_of_ne (hn2p p hpl hpnone) hne
  have hlooknone : (db.markTaskFinished task).getTaskByID task.id = none := by
    show lookupTask task.id (eraseTask task.id db.allTasksByID) = none
    exact lookupTask_eraseTask_self hnd
  rcases hrs : task.status.runStatus with _ | rs
  · obtain ⟨hs1, hs2, hs3, hs4⟩ := @markTaskFinished_stats_none db task hrs
    have hmemp : task.id ∈ db.pendingTasks := hn2p (task.id, task) (lookupTask_mem hL) hrs
    have hlen := length_erasePending hmemp
    have hcnt := countP_eraseTask hL (fun p => p.2.status.runStatus.isSome)
    rw [hrs] at hcnt
    simp at hcnt
    refine ⟨hwf2, ⟨?_, ?_⟩, hs4, hlooknone⟩
    · rw [hs1, markTaskFinished_pending]
      omega
    · rw [hs2, hs3]
      have e1 : runStatusCount (db.markTaskFinished task)
          = (eraseTask task.id db.allTasksByID).countP
              (fun p => p.2.status.runStatus.isSome) := rfl
      rw [e1]
      unfold runStatusCount at hcr
      omega
  · obtain ⟨hs1, hs2, hs3⟩ := @markTaskFinished_stats_some db task rs hrs
    have hnotp : task.id ∉ db.pendingTasks := by
      intro hmem
      have h2 := hp2n task.id hmem
      have h3 : lookupTask task.id db.allTasksByID = db.getTaskByID task.id := rfl
      rw [h] at h2
      simp [hrs] at h2
    have hpend : erasePending task.id db.pendingTasks = db.pendingTasks :=
      erasePending_of_not_mem hnotp
    have hcnt := countP_eraseTask hL (fun p => p.2.status.runStatus.isSome)
    rw [hrs] at hcnt
    simp at hcnt
    refine ⟨hwf2, ⟨?_, ?_⟩, hs3, hlooknone⟩
    · rw [hs2, markTaskFinished_pending, hpend]
      exact hcp
    · rw [hs1]
      have e1 : runStatusCount (db.markTaskFinished task)
          = (eraseTask task.id db.allTasksByID).countP
              (fun p => p.2.status.runStatus.isSome) := rfl
      rw [e1]
      unfold runStatusCount at hcr
      omega

/-- `createTask` with a fresh id preserves well-formedness and counter
consistency and does not touch `numFinished`. -/
theorem createTask_preserves {db : TaskDatabase} {id : TaskID} {info : TaskCreateInfo}
    {now : Int} (hwf : WF db) (hc : CountersOK db) (hnone : db.getTaskByID id = none) :
    WF (db.createTask id info now).1 ∧ CountersOK (db.createTask id info now).1 ∧
      (db.createTask id info now).1.stats.numFinished = db.stats.numFinished := by
  obtain ⟨hnd, hpnd, hids, hp2n, hn2p⟩ := hwf
  obtain ⟨hcp, hcr⟩ := hc
  have hnotin : id ∉ keys db.allTasksByID := lookupTask_eq_none_iff.mp hnone
  have hnp : id ∉ db.pendingTasks := by
    intro hmem
    have h4 := hp2n id hmem
    rw [hnone] at h4
    cases h4
  set newTask : Task :=
    { id := id, command := info.command, schedule := info.schedule,
      status := { createTime := now, runStatus := none } } with hnew
  have hall : (db.createTask id info now).1.allTasksByID
      = db.allTasksByID ++ [(id, newTask)] := by
    show insertTask id newTask db.allTasksByID = _
    exact insertTask_of_not_mem hnotin
  have hpending : (db.createTask id info now).1.pendingTasks
      = db.pendingTasks ++ [id] := rfl
  have hlookup_all : ∀ x, (db.createTask id info now).1.getTaskByID x
      = lookupTask x (db.allTasksByID ++ [(id, newTask)]) := by
    intro x
    show lookupTask x (insertTask id newTask db.allTasksByID) = _
    rw [insertTask_of_not_mem hnotin]
  refine ⟨⟨?_, ?_, ?_, ?_, ?_⟩, ⟨?_, ?_⟩, rfl⟩
  · rw [hall]
    show (keys (db.allTasksByID ++ [(id, newTask)])).Nodup
    rw [keys_append]
    refine List.nodup_append.mpr ⟨hnd, by simp [keys], ?_⟩
    intro a ha hb
    simp [keys] at hb
    subst hb
    exact hnotin ha
  · rw [hpending]
    refine List.nodup_append.mpr ⟨hpnd, by simp, ?_⟩
    intro a ha hb
    simp at hb
    subst hb
    exact hnp ha
  · intro p hp
    rw [hall] at hp
    rcases List.mem_append.mp hp with hp | hp
    · exact hids p hp
    · simp at hp
      rw [hp]
  · intro j hj
    rw [hpending] at hj
    rw [hlookup_all j]
    rcases List.mem_append.mp hj with hj | hj
    · have h4 := hp2n j hj
      rcases hlk : lookupTask j db.allTasksByID with _ | tj
      · rw [TaskDatabase.getTaskByID, hlk] at h4
        cases h4
      · rw [lookupTask_append_some hlk]
        rw [TaskDatabase.getTaskByID, hlk] at h4
        exact h4
    · simp at hj
      subst hj
      rw [lookupTask_append_left hnotin]
      simp [lookupTask, hnew]
  · intro p hp hpnone
    rw [hall] at hp
    rw [hpending]
    rcases List.mem_append.mp hp with hp | hp
    · exact List.mem_append_left _ (hn2p p hp hpnone)
    · simp at hp
      rw [hp]
      exact List.mem_append_right _ (List.mem_cons_self _ _)
  · show db.stats.numPending + 1 = ((db.pendingTasks ++ [id]).length : Int)
    simp
    omega
  · show db.stats.numRunning + db.stats.numCanceling
      = (runStatusCount (db.createTask id info now).1 : Int)
    have e1 : runStatusCount (db.createTask id info now).1
        = (db.allTasksByID ++ [(id, newTask)]).countP
            (fun p => p.2.status.runStatus.isSome) := by
      unfold runStatusCount
      rw [hall]
    rw [e1, List.countP_append]
    unfold runStatusCount at hcr
    simp [hnew]
    omega

/-- `heartbeatTask` preserves well-formedness and all counters. -/
theorem heartbeatTask_preserves {db : TaskDatabase} {id : TaskID} {now : Int}
    (hwf : WF db) (hc : CountersOK db) :
    WF (db.heartbeatTask id now) ∧ CountersOK (db.heartbeatTask id now) ∧
      (db.heartbeatTask id now).stats = db.stats := by
  obtain ⟨hnd, hpnd, hids, hp2n, hn2p⟩ := hwf
  obtain ⟨hcp, hcr⟩ := hc
  have hall : (db.heartbeatTask id now).allTasksByID
      = mutateTask id (fun t => t.heartbeat now) db.allTasksByID := rfl
  refine ⟨⟨?_, hpnd, ?_, ?_, ?_⟩, ⟨hcp, ?_⟩, rfl⟩
  · rw [hall]
    show (keys (mutateTask id (fun t => t.heartbeat now) db.allTasksByID)).Nodup
    rw [keys_mutateTask]
    exact hnd
  · intro p hp
    rw [hall] at hp
    obtain ⟨q, hq, he⟩ := mem_mutateTask hp
    by_cases hk : q.1 = id
    · rw [he, if_pos hk]
      show (q.2.heartbeat now).id = q.1
      rw [heartbeat_id]
      exact hids q hq
    · rw [he, if_neg hk]
      exact hids q hq
  · intro j hj
    have hj2 : j ∈ db.pendingTasks := hj
    have hg : (db.heartbeatTask id now).getTaskByID j
        = lookupTask j (mutateTask id (fun t => t.heartbeat now) db.allTasksByID) := rfl
    rw [hg]
    by_cases hjid : j = id
    · subst hjid
      have h4 := hp2n j hj2
      rcases hlk : lookupTask j db.allTasksByID with _ | tj
      · rw [TaskDatabase.getTaskByID, hlk] at h4
        cases h4
      · rw [TaskDatabase.getTaskByID, hlk] at h4
        simp at h4
        rw [lookupTask_mutateTask_self, hlk]
        simp [heartbeat_of_none h4, h4]
    · rw [lookupTask_mutateTask_ne hjid]
      exact hp2n j hj2
  · intro p hp hpnone
    rw [hall] at hp
    obtain ⟨q, hq, he⟩ := mem_mutateTask hp
    by_cases hk : q.1 = id
    · rw [he, if_pos hk] at hpnone ⊢
      have hqnone : q.2.status.runStatus = none := by
        have hi : ((q.2.heartbeat now).status.runStatus).isSome
            = q.2.status.runStatus.isSome := heartbeat_isSome
        rw [hpnone] at hi
        exact Option.not_isSome_iff_eq_none.mp (by rw [← hi]; simp)
      exact hn2p q hq hqnone
    · rw [he, if_neg hk] at hpnone ⊢
      exact hn2p q hq hpnone
  · show db.stats.numRunning + db.stats.numCanceling
      = (runStatusCount (db.heartbeatTask id now) : Int)
    have e1 : runStatusCount (db.heartbeatTask id now)
        = (mutateTask id (fun t => t.heartbeat now) db.allTasksByID).countP
            (fun p => p.2.status.runStatus.isSome) := rfl
    rw [e1, countP_mutateTask_of_preserved (by intro k t; simp [heartbeat_isSome])]
    exact hcr

theorem markTaskShouldCancel_eq_mutate {db : TaskDatabase} {task : Task}
    {rs : TaskRunStatus} (h : task.status.runStatus = some rs) :
    db.markTaskShouldCancel task =
      { db with
          allTasksByID := mutateTask task.id (fun t => (t.markShouldCancel).1) db.allTasksByID
          stats := { db.stats with
                      numRunning := db.stats.numRunning - 1
                      numCanceling := db.stats.numCanceling + 1 } } := by
  unfold TaskDatabase.markTaskShouldCancel
  rw [markShouldCancel_snd_true h, if_pos rfl]

theorem markTaskShouldCancel_eq_finish {db : TaskDatabase} {task : Task}
    (h : task.status.runStatus = none) :
    db.markTaskShouldCancel task = db.markTaskFinished task := by
  unfold TaskDatabase.markTaskShouldCancel
  rw [markShouldCancel_snd_false h, if_neg (by decide)]

/-- `markTaskShouldCancel` on a live handle preserves well-formedness and
counter consistency; `numFinished` grows by one exactly when the task was
pending. -/
theorem markTaskShouldCancel_preserves {db : TaskDatabase} {task : Task}
    (hwf : WF db) (hc : CountersOK db) (h : db.getTaskByID task.id = some task) :
    WF (db.markTaskShouldCancel task) ∧ CountersOK (db.markTaskShouldCancel task) ∧
      (db.markTaskShouldCancel task).stats.numFinished
        = db.stats.numFinished + (if task.status.runStatus.isSome then 0 else 1) := by
  rcases hrs : task.status.runStatus with _ | rs
  · rw [markTaskShouldCancel_eq_finish hrs]
    obtain ⟨h1, h2, h3, _⟩ := markTaskFinished_preserves hwf hc h
    exact ⟨h1, h2, by rw [h3]; simp⟩
  · rw [markTaskShouldCancel_eq_mutate hrs]
    obtain ⟨hnd, hpnd, hids, hp2n, hn2p⟩ := hwf
    obtain ⟨hcp, hcr⟩ := hc
    have hL : lookupTask task.id db.allTasksByID = some task := h
    refine ⟨⟨?_, hpnd, ?_, ?_, ?_⟩, ⟨hcp, ?_⟩, by simp⟩
    · show (keys (mutateTask task.id (fun t => (t.markShouldCancel).1) db.allTasksByID)).Nodup
      rw [keys_mutateTask]
      exact hnd
    · intro p hp
      have hp2 : p ∈ mutateTask task.id (fun t => (t.markShouldCancel).1) db.allTasksByID := hp
      obtain ⟨q, hq, he⟩ := mem_mutateTask hp2
      by_cases hk : q.1 = task.id
      · rw [he, if_pos hk]
        show ((q.2.markShouldCancel).1).id = q.1
        rw [markShouldCancel_fst_id]
        exact hids q hq
      · rw [he, if_neg hk]
        exact hids q hq
    · intro j hj
      have hj2 : j ∈ db.pendingTasks := hj
      show (lookupTask j (mutateTask task.id (fun t => (t.markShouldCancel).1)
          db.allTasksByID)).map (fun t => t.status.runStatus) = some none
      by_cases hjid : j = task.id
      · rw [hjid] at hj2
        have h4 := hp2n task.id hj2
        rw [TaskDatabase.getTaskByID, hL] at h4
        simp [hrs] at h4
      · rw [lookupTask_mutateTask_ne hjid]
        exact hp2n j hj2
    · intro p hp hpnone
      have hp2 : p ∈ mutateTask task.id (fun t => (t.markShouldCancel).1) db.allTasksByID := hp
      obtain ⟨q, hq, he⟩ := mem_mutateTask hp2
      show p.1 ∈ db.pendingTasks
      by_cases hk : q.1 = task.id
      · rw [he, if_pos hk] at hpnone
        have hqnone : q.2.status.runStatus = none := by
          have hi := markShouldCancel_fst_isSome (t := q.2)
          rw [hpnone] at hi
          exact Option.not_isSome_iff_eq_none.mp (by rw [← hi]; simp)
        rw [he, if_pos hk]
        exact hn2p q hq hqnone
      · rw [he, if_neg hk] at hpnone
        rw [he, if_neg hk]
        exact hn2p q hq hpnone
    · show db.stats.numRunning - 1 + (db.stats.numCanceling + 1)
        = ((mutateTask task.id (fun t => (t.markShouldCancel).1) db.allTasksByID).countP
            (fun p => p.2.status.runStatus.isSome) : Int)
      rw [countP_mutateTask_of_preserved (by intro k t; simp [markShouldCancel_fst_isSome])]
      unfold runStatusCount at hcr
      omega

/-- `takeTaskToRun` preserves well-formedness and counter consistency and
does not touch `numFinished`. -/
theorem takeTaskToRun_preserves {db : TaskDatabase} {haveRes : List Resource}
    {now : Int} (hwf : WF db) (hc : CountersOK db) :
    WF (db.takeTaskToRun haveRes now).1 ∧ CountersOK (db.takeTaskToRun haveRes now).1 ∧
      (db.takeTaskToRun haveRes now).1.stats.numFinished = db.stats.numFinished := by
  obtain ⟨hnd, hpnd, hids, hp2n, hn2p⟩ := hwf
  obtain ⟨hcp, hcr⟩ := hc
  rcases hs : searchPending db haveRes db.pendingTasks none (-1) with _ | r
  · have hsame : (db.takeTaskToRun haveRes now).1 = db := by
      unfold TaskDatabase.takeTaskToRun
      rw [hs]
    rw [hsame]
    exact ⟨⟨hnd, hpnd, hids, hp2n, hn2p⟩, ⟨hcp, hcr⟩, rfl⟩
  · obtain ⟨sr, l₁, l₂, helig, hdecomp, _, _⟩ := searchPending_entry_spec hs
    have hmem : r ∈ db.pendingTasks := by
      rw [hdecomp]
      exact List.mem_append_right _ (List.mem_cons_self _ _)
    have helig2 : (db.getTaskByID r).bind (fun t => scoreOf haveRes t.schedule)
        = some sr := helig
    obtain ⟨task, hlk, hsc⟩ := Option.bind_eq_some.mp helig2
    have htake : (db.takeTaskToRun haveRes now).1 =
        { db with
            pendingTasks := erasePending r db.pendingTasks
            allTasksByID := mutateTask r (fun t => t.markStarted now) db.allTasksByID
            stats := { db.stats with
                        numPending := db.stats.numPending - 1
                        numRunning := db.stats.numRunning + 1 } } := by
      unfold TaskDatabase.takeTaskToRun
      rw [hs]
      dsimp only
      rw [hlk]
    have hL : lookupTask r db.allTasksByID = some task := hlk
    have htasknone : task.status.runStatus = none := by
      have h4 := hp2n r hmem
      rw [hlk] at h4
      simp at h4
      exact h4
    rw [htake]
    refine ⟨⟨?_, erasePending_nodup hpnd, ?_, ?_, ?_⟩, ⟨?_, ?_⟩, rfl⟩
    · show (keys (mutateTask r (fun t => t.markStarted now) db.allTasksByID)).Nodup
      rw [keys_mutateTask]
      exact hnd
    · intro p hp
      have hp2 : p ∈ mutateTask r (fun t => t.markStarted now) db.allTasksByID := hp
      obtain ⟨q, hq, he⟩ := mem_mutateTask hp2
      by_cases hk : q.1 = r
      · rw [he, if_pos hk]
        show ((q.2.markStarted now)).id = q.1
        rw [markStarted_id]
        exact hids q hq
      · rw [he, if_neg hk]
        exact hids q hq
    · intro j hj
      have hj0 : j ∈ erasePending r db.pendingTasks := hj
      have hj1 := mem_erasePending hj0
      have hjne : j ≠ r := by
        intro e
        exact not_mem_erasePending_self hpnd (e ▸ hj0)
      show (lookupTask j (mutateTask r (fun t => t.markStarted now)
          db.allTasksByID)).map (fun t => t.status.runStatus) = some none
      rw [lookupTask_mutateTask_ne hjne]
      exact hp2n j hj1
    · intro p hp hpnone
      have hp2 : p ∈ mutateTask r (fun t => t.markStarted now) db.allTasksByID := hp
      obtain ⟨q, hq, he⟩ := mem_mutateTask hp2
      show p.1 ∈ erasePending r db.pendingTasks
      by_cases hk : q.1 = r
      · rw [he, if_pos hk] at hpnone
        have hi := @markStarted_isSome q.2 now
        rw [hpnone] at hi
        cases hi
      · rw [he, if_neg hk] at hpnone
        rw [he, if_neg hk]
        exact mem_erasePending_of_ne (hn2p q hq hpnone) hk
    · show db.stats.numPending - 1 = ((erasePending r db.pendingTasks).length : Int)
      have hlen := length_erasePending hmem
      omega
    · show db.stats.numRunning + 1 + db.stats.numCanceling
        = ((mutateTask r (fun t => t.markStarted now) db.allTasksByID).countP
            (fun p => p.2.status.runStatus.isSome) : Int)
      have hcnt := countP_mutateTask (f := fun t => t.markStarted now) hnd hL
        (fun p => p.2.status.runStatus.isSome)
      rw [htasknone] at hcnt
      simp only [markStarted_isSome] at hcnt
      simp at hcnt
      unfold runStatusCount at hcr
      omega

theorem cleanupLoop_lookup_none {timeout now : Int} {x : TaskID} :
    ∀ (entries : List (TaskID × Task)) (acc : TaskDatabase),
      acc.getTaskByID x = none →
      (cleanupLoop timeout now entries acc).getTaskByID x = none := by
  intro entries
  induction entries with
  | nil =>
    intro acc h
    exact h
  | cons p rest ih =>
    intro acc h
    unfold cleanupLoop TaskDatabase.cleanupIfZombieTask
    by_cases hz : isZombie p.2 timeout now = true
    · rw [if_pos hz]
      apply ih
      show lookupTask x (eraseTask p.2.id acc.allTasksByID) = none
      exact lookupTask_eraseTask_none h
    · rw [if_neg hz]
      exact ih acc h

/-- The loop of `cleanupZombieTasks`, run over a snapshot of the live
entries: well-formedness and counter consistency are preserved,
`numFinished` grows by exactly the number of zombie entries, every zombie
entry is gone afterwards and every other entry is untouched. -/
theorem cleanupLoop_preserves {timeout now : Int} :
    ∀ (entries : List (TaskID × Task)) (acc : TaskDatabase),
      WF acc → CountersOK acc →
      (entries.map Prod.fst).Nodup →
      (∀ p ∈ entries, acc.getTaskByID p.1 = some p.2 ∧ p.2.id = p.1) →
      WF (cleanupLoop timeout now entries acc) ∧
      CountersOK (cleanupLoop timeout now entries acc) ∧
      (cleanupLoop timeout now entries acc).stats.numFinished
        = acc.stats.numFinished + entries.countP (fun p => isZombie p.2 timeout now) ∧
      (∀ p ∈ entries,
        (isZombie p.2 timeout now = true →
          (cleanupLoop timeout now entries acc).getTaskByID p.1 = none) ∧
        (isZombie p.2 timeout now = false →
          (cleanupLoop timeout now entries acc).getTaskByID p.1 = acc.getTaskByID p.1)) := by
  intro entries
  induction entries with
  | nil =>
    intro acc h1 h2 _ _
    refine ⟨h1, h2, by simp [cleanupLoop], ?_⟩
    intro p hp
    cases hp
  | cons p rest ih =>
    intro acc hwf hc hnd hcond
    obtain ⟨hlook, hid⟩ := hcond p (List.mem_cons_self _ _)
    rw [List.map_cons, List.nodup_cons] at hnd
    obtain ⟨hpnotin, hndr⟩ := hnd
    by_cases hz : isZombie p.2 timeout now = true
    · have hlook2 : acc.getTaskByID p.2.id = some p.2 := by
        rw [hid]
        exact hlook
      obtain ⟨hwf2, hc2, hfin2, hnone2⟩ := markTaskFinished_preserves hwf hc hlook2
      have hstep : cleanupLoop timeout now (p :: rest) acc
          = cleanupLoop timeout now rest (acc.markTaskFinished p.2) := by
        conv_lhs => rw [cleanupLoop]
        unfold TaskDatabase.cleanupIfZombieTask
        rw [if_pos hz]
      have hcond2 : ∀ q ∈ rest,
          (acc.markTaskFinished p.2).getTaskByID q.1 = some q.2 ∧ q.2.id = q.1 := by
        intro q hq
        obtain ⟨hql, hqid⟩ := hcond q (List.mem_cons_of_mem _ hq)
        refine ⟨?_, hqid⟩
        have hneq : p.2.id ≠ q.1 := by
          rw [hid]
          intro e
          exact hpnotin (e ▸ List.mem_map_of_mem Prod.fst hq)
        rw [markTaskFinished_lookup_ne hneq]
        exact hql
      obtain ⟨hwf3, hc3, hfin3, hlast3⟩ := ih (acc.markTaskFinished p.2) hwf2 hc2 hndr hcond2
      rw [hstep]
      refine ⟨hwf3, hc3, ?_, ?_⟩
      · rw [hfin3, hfin2, List.countP_cons]
        simp [hz]
        omega
      · intro q hq
        rcases List.mem_cons.mp hq with rfl | hq
        · refine ⟨fun _ => ?_, fun hnz => ?_⟩
          · have hnq : (acc.markTaskFinished q.2).getTaskByID q.1 = none := by
              rw [← hid]
              exact hnone2
            exact cleanupLoop_lookup_none rest _ hnq
          · rw [hnz] at hz
            cases hz
        · obtain ⟨hz1, hz2⟩ := hlast3 q hq
          refine ⟨hz1, fun hnz => ?_⟩
          rw [hz2 hnz]
          have hneq : p.2.id ≠ q.1 := by
            rw [hid]
            intro e
            exact hpnotin (e ▸ List.mem_map_of_mem Prod.fst hq)
          exact markTaskFinished_lookup_ne hneq
    · have hz2 : isZombie p.2 timeout now = false := by
        cases hb : isZombie p.2 timeout now
        · rfl
        · exact absurd hb hz
      have hstep : cleanupLoop timeout now (p :: rest) acc
          = cleanupLoop timeout now rest acc := by
        conv_lhs => rw [cleanupLoop]
        unfold TaskDatabase.cleanupIfZombieTask
        rw [if_neg hz]
      obtain ⟨hwf3, hc3, hfin3, hlast3⟩ :=
        ih acc hwf hc hndr (fun q hq => hcond q (List.mem_cons_of_mem _ hq))
      rw [hstep]
      refine ⟨hwf3, hc3, ?_, ?_⟩
      · rw [hfin3, List.countP_cons]
        simp [hz2]
      · intro q hq
        rcases List.mem_cons.mp hq with rfl | hq
        · refine ⟨fun hzz => ?_, fun _ => ?_⟩
          · rw [hzz] at hz2
            cases hz2
          · apply cleanupLoop_lookup_preserved rest acc
            intro s hs hsz hse
            obtain ⟨_, hsid⟩ := hcond s (List.mem_cons_of_mem _ hs)
            rw [hsid] at hse
            exact hpnotin (hse ▸ List.mem_map_of_mem Prod.fst hs)
        · exact hlast3 q hq

/-- `cleanupZombieTasks` preserves well-formedness and counter consistency,
adds the number of zombies to `numFinished`, removes exactly the zombies and
leaves every other live task untouched. -/
theorem cleanupZombieTasks_preserves {db : TaskDatabase} {timeout now : Int}
    (hwf : WF db) (hc : CountersOK db) :
    WF (db.cleanupZombieTasks timeout now) ∧
    CountersOK (db.cleanupZombieTasks timeout now) ∧
    (db.cleanupZombieTasks timeout now).stats.numFinished
      = db.stats.numFinished
        + db.allTasksByID.countP (fun p => isZombie p.2 timeout now) ∧
    (∀ p ∈ db.allTasksByID,
      (isZombie p.2 timeout now = true →
        (db.cleanupZombieTasks timeout now).getTaskByID p.1 = none) ∧
      (isZombie p.2 timeout now = false →
        (db.cleanupZombieTasks timeout now).getTaskByID p.1 = some p.2)) := by
  obtain ⟨hnd, hpnd, hids, hp2n, hn2p⟩ := hwf
  have hcond : ∀ p ∈ db.allTasksByID, db.getTaskByID p.1 = some p.2 ∧ p.2.id = p.1 := by
    intro p hp
    exact ⟨lookupTask_of_mem_nodup hnd hp, hids p hp⟩
  obtain ⟨h1, h2, h3, h4⟩ :=
    cleanupLoop_preserves db.allTasksByID db ⟨hnd, hpnd, hids, hp2n, hn2p⟩ hc hnd hcond
  refine ⟨h1, h2, h3, ?_⟩
  intro p hp
  obtain ⟨hz1, hz2⟩ := h4 p hp
  refine ⟨hz1, fun hnz => ?_⟩
  show (cleanupLoop timeout now db.allTasksByID db).getTaskByID p.1 = some p.2
  rw [hz2 hnz]
  exact (hcond p hp).1

/-- One database operation preserves well-formedness and counter
consistency, and advances `numFinished` by exactly the number of
`markTaskFinished` invocations it performs. -/
theorem DBOp_step_preserves (op : DBOp) (db : TaskDatabase)
    (hwf : WF db) (hc : CountersOK db) :
    WF (op.apply db) ∧ CountersOK (op.apply db) ∧
      (op.apply db).stats.numFinished = db.stats.numFinished + op.finishCount db := by
  cases op with
  | create id info now =>
    simp only [DBOp.apply, DBOp.finishCount]
    by_cases hused : (db.getTaskByID id).isSome = true
    · rw [if_pos hused]
      exact ⟨hwf, hc, by omega⟩
    · rw [if_neg hused]
      have hnone : db.getTaskByID id = none := by
        rcases hdb : db.getTaskByID id with _ | t
        · rfl
        · rw [hdb] at hused
          simp at hused
      obtain ⟨h1, h2, h3⟩ := createTask_preserves hwf hc hnone
      exact ⟨h1, h2, by omega⟩
  | take haveRes now =>
    simp only [DBOp.apply, DBOp.finishCount]
    obtain ⟨h1, h2, h3⟩ := @takeTaskToRun_preserves db haveRes now hwf hc
    exact ⟨h1, h2, by omega⟩
  | heartbeat id now =>
    simp only [DBOp.apply, DBOp.finishCount]
    rcases hdb : db.getTaskByID id with _ | t
    · exact ⟨hwf, hc, by simp⟩
    · obtain ⟨h1, h2, h3⟩ := @heartbeatTask_preserves db id now hwf hc
      refine ⟨h1, h2, ?_⟩
      show (db.heartbeatTask id now).stats.numFinished = db.stats.numFinished + 0
      rw [h3]
      omega
  | finish id =>
    simp only [DBOp.apply, DBOp.finishCount]
    rcases hdb : db.getTaskByID id with _ | t
    · exact ⟨hwf, hc, by simp⟩
    · have htid : t.id = id := hwf.2.2.1 (id, t) (lookupTask_mem hdb)
      have hdb2 : db.getTaskByID t.id = some t := by
        rw [htid]
        exact hdb
      obtain ⟨h1, h2, h3, _⟩ := markTaskFinished_preserves hwf hc hdb2
      refine ⟨h1, h2, ?_⟩
      rw [h3]
      simp
  | cancel id =>
    simp only [DBOp.apply, DBOp.finishCount]
    rcases hdb : db.getTaskByID id with _ | t
    · exact ⟨hwf, hc, by simp⟩
    · have htid : t.id = id := hwf.2.2.1 (id, t) (lookupTask_mem hdb)
      have hdb2 : db.getTaskByID t.id = some t := by
        rw [htid]
        exact hdb
      obtain ⟨h1, h2, h3⟩ := markTaskShouldCancel_preserves hwf hc hdb2
      refine ⟨h1, h2, ?_⟩
      rw [h3]
  | cleanup timeout now =>
    simp only [DBOp.apply, DBOp.finishCount]
    obtain ⟨h1, h2, h3, _⟩ :=
      @cleanupZombieTasks_preserves db timeout now hwf hc
    exact ⟨h1, h2, h3⟩

theorem WF_initDB : WF initDB := by
  refine ⟨by simp [initDB, keys], by simp [initDB], ?_, ?_, ?_⟩
  · intro p hp
    simp [initDB] at hp
  · intro j hj
    simp [initDB] at hj
  · intro p hp
    simp [initDB] at hp

theorem CountersOK_initDB : CountersOK initDB := by
  constructor
  · simp [initDB]
  · simp [initDB, runStatusCount]

theorem applyOps_cons {op : DBOp} {ops : List DBOp} {db : TaskDatabase} :
    applyOps (op :: ops) db = applyOps ops (op.apply db) := rfl

/-- Every operation sequence preserves well-formedness and counter
consistency, with `numFinished` advanced by the trace's finish count. -/
theorem applyOps_preserves (ops : List DBOp) :
    ∀ db : TaskDatabase, WF db → CountersOK db →
      WF (applyOps ops db) ∧ CountersOK (applyOps ops db) ∧
        (applyOps ops db).stats.numFinished
          = db.stats.numFinished + finishCalls ops db := by
  induction ops with
  | nil =>
    intro db h1 h2
    exact ⟨h1, h2, by simp [applyOps, finishCalls]⟩
  | cons op rest ih =>
    intro db h1 h2
    obtain ⟨h3, h4, h5⟩ := DBOp_step_preserves op db h1 h2
    obtain ⟨h6, h7, h8⟩ := ih (op.apply db) h3 h4
    rw [applyOps_cons]
    refine ⟨h6, h7, ?_⟩
    rw [h8, h5]
    show _ = db.stats.numFinished + (op.finishCount db + finishCalls rest (op.apply db))
    omega

/-- **C1.**  After any sequence of database operations starting from the
fresh database, `numPending` equals the size of the pending set,
`numRunning + numCanceling` equals the number of live tasks whose
`runStatus` is present, and `numFinished` equals the number of
`markTaskFinished` invocations the sequence performed (direct calls,
cancellations of pending tasks, and zombie reaps alike) — in particular
this holds when `markTaskShouldCancel` hits the same task repeatedly, since
the double running→canceling counter shift cancels in the sum. -/
theorem C1_counter_consistency (ops : List DBOp) :
    (applyOps ops initDB).stats.numPending
      = ((applyOps ops initDB).pendingTasks.length : Int) ∧
    (applyOps ops initDB).stats.numRunning + (applyOps ops initDB).stats.numCanceling
      = (runStatusCount (applyOps ops initDB) : Int) ∧
    (applyOps ops initDB).stats.numFinished = finishCalls ops initDB := by
  obtain ⟨_, ⟨h1, h2⟩, h3⟩ := applyOps_preserves ops initDB WF_initDB CountersOK_initDB
  refine ⟨h1, h2, ?_⟩
  rw [h3]
  show 0 + finishCalls ops initDB = finishCalls ops initDB
  omega

/-- What `cleanupZombieTasks` guarantees: every live task whose heartbeat
has lapsed (`now − heartbeatTime ≥ timeout`, i.e. `isZombie`) is out of the
database afterwards, every other live task is still there with the same
record, and `numFinished` has grown by exactly the number of reaped
zombies. -/
def ZombieSpec (db : TaskDatabase) (timeout now : Int) : Prop :=
  (∀ p ∈ db.allTasksByID,
    (isZombie p.2 timeout now = true →
      (db.cleanupZombieTasks timeout now).getTaskByID p.1 = none) ∧
    (isZombie p.2 timeout now = false →
      (db.cleanupZombieTasks timeout now).getTaskByID p.1 = some p.2)) ∧
  (db.cleanupZombieTasks timeout now).stats.numFinished
    = db.stats.numFinished + db.allTasksByID.countP (fun p => isZombie p.2 timeout now)

/-- **C3.**  Zombie reaping, on any database state reachable by a sequence
of operations: after `cleanupZombieTasks`, every task that had a run status
with `now − heartbeatTime ≥ timeout` at the moment of the call is gone,
each reaped task bumps `numFinished` by exactly one, and no other task is
removed or altered. -/
theorem C3_zombie_reaping (ops : List DBOp) (timeout now : Int) :
    ZombieSpec (applyOps ops initDB) timeout now := by
  obtain ⟨hwf, hc, _⟩ := applyOps_preserves ops initDB WF_initDB CountersOK_initDB
  obtain ⟨_, _, h3, h4⟩ :=
    @cleanupZombieTasks_preserves (applyOps ops initDB) timeout now hwf hc
  exact ⟨h4, h3⟩

/-! ## Claim C9: monotone cancellation -/

theorem cleanupLoop_lookup_cases {timeout now : Int} :
    ∀ (entries : List (TaskID × Task)) (acc : TaskDatabase) (x : TaskID),
      (keys acc.allTasksByID).Nodup →
      ((cleanupLoop timeout now entries acc).getTaskByID x = none ∨
       (cleanupLoop timeout now entries acc).getTaskByID x = acc.getTaskByID x) := by
  intro entries
  induction entries with
  | nil =>
    intro acc x _
    right
    rfl
  | cons p rest ih =>
    intro acc x hnd
    by_cases hz : isZombie p.2 timeout now = true
    · have hstep : cleanupLoop timeout now (p :: rest) acc
          = cleanupLoop timeout now rest (acc.markTaskFinished p.2) := by
        conv_lhs => rw [cleanupLoop]
        unfold TaskDatabase.cleanupIfZombieTask
        rw [if_pos hz]
      rw [hstep]
      have hnd2 : (keys (acc.markTaskFinished p.2).allTasksByID).Nodup := by
        rw [markTaskFinished_allTasks]
        exact keys_eraseTask_nodup hnd
      rcases ih (acc.markTaskFinished p.2) x hnd2 with hcase | hcase
      · left
        exact hcase
      · by_cases hpx : p.2.id = x
        · left
          rw [hcase, ← hpx]
          show lookupTask p.2.id (eraseTask p.2.id acc.allTasksByID) = none
          exact lookupTask_eraseTask_self hnd
        · right
          rw [hcase]
          exact markTaskFinished_lookup_ne hpx
    · have hstep : cleanupLoop timeout now (p :: rest) acc
          = cleanupLoop timeout now rest acc := by
        conv_lhs => rw [cleanupLoop]
        unfold TaskDatabase.cleanupIfZombieTask
        rw [if_neg hz]
      rw [hstep]
      exact ih acc x hnd

/-- The task with id `id` is live in `db` with `wasCanceled` set. -/
def CanceledAt (db : TaskDatabase) (id : TaskID) : Prop :=
  (db.getTaskByID id).map (fun t => t.status.runStatus.map (fun rs => rs.wasCanceled))
    = some (some true)

theorem canceled_step (op : DBOp) (db : TaskDatabase) (id : TaskID)
    (hwf : WF db) (h : CanceledAt db id) :
    (op.apply db).getTaskByID id = none ∨ CanceledAt (op.apply db) id := by
  have hex : ∃ t rs, db.getTaskByID id = some t ∧ t.status.runStatus = some rs ∧
      rs.wasCanceled = true := by
    unfold CanceledAt at h
    rcases hdb : db.getTaskByID id with _ | t
    · rw [hdb] at h
      cases h
    · rw [hdb] at h
      simp only [Option.map_some'] at h
      injection h with h
      rcases hrs : t.status.runStatus with _ | rs
      · rw [hrs] at h
        simp at h
      · rw [hrs] at h
        simp only [Option.map_some'] at h
        injection h with h
        exact ⟨t, rs, rfl, hrs, h⟩
  obtain ⟨t, rs, hdb, hrs, hwc⟩ := hex
  cases op with
  | create id2 info now =>
    simp only [DBOp.apply]
    by_cases hused : (db.getTaskByID id2).isSome = true
    · rw [if_pos hused]
      right
      exact h
    · rw [if_neg hused]
      right
      have hne : id ≠ id2 := by
        intro e
        exact hused (by rw [← e, hdb]; rfl)
      unfold CanceledAt
      have he : (db.createTask id2 info now).1.getTaskByID id = db.getTaskByID id :=
        lookupTask_insertTask_ne hne
      rw [he]
      exact h
  | take haveRes now =>
    rcases hs : searchPending db haveRes db.pendingTasks none (-1) with _ | r
    · right
      have hsame : (DBOp.take haveRes now).apply db = db := by
        simp only [DBOp.apply]
        unfold TaskDatabase.takeTaskToRun
        rw [hs]
      rw [hsame]
      exact h
    · rcases hlk : db.getTaskByID r with _ | task
      · right
        have hsame : (DBOp.take haveRes now).apply db = db := by
          simp only [DBOp.apply]
          unfold TaskDatabase.takeTaskToRun
          rw [hs]
          dsimp only
          rw [hlk]
        rw [hsame]
        exact h
      · right
        have happ : ((DBOp.take haveRes now).apply db).getTaskByID id
            = lookupTask id (mutateTask r (fun u => u.markStarted now) db.allTasksByID) := by
          simp only [DBOp.apply]
          unfold TaskDatabase.takeTaskToRun
          rw [hs]
          dsimp only
          rw [hlk]
          rfl
        unfold CanceledAt
        rw [happ]
        by_cases hir : id = r
        · subst hir
          rw [lookupTask_mutateTask_self]
          have hL : lookupTask id db.allTasksByID = some t := hdb
          rw [hL]
          simp [markStarted_of_some hrs, hrs, hwc]
        · rw [lookupTask_mutateTask_ne hir]
          exact h
  | heartbeat id2 now =>
    simp only [DBOp.apply]
    rcases hdb2 : db.getTaskByID id2 with _ | t2
    · right
      exact h
    · right
      show CanceledAt (db.heartbeatTask id2 now) id
      unfold CanceledAt
      show (lookupTask id (mutateTask id2 (fun u => u.heartbeat now)
          db.allTasksByID)).map (fun u => u.status.runStatus.map (fun r2 => r2.wasCanceled))
        = some (some true)
      by_cases hii : id = id2
      · subst hii
        rw [lookupTask_mutateTask_self]
        have hL : lookupTask id db.allTasksByID = some t := hdb
        rw [hL]
        simp [Task.heartbeat, hrs, hwc]
      · rw [lookupTask_mutateTask_ne hii]
        exact h
  | finish id2 =>
    simp only [DBOp.apply]
    rcases hdb2 : db.getTaskByID id2 with _ | t2
    · right
      exact h
    · have ht2id : t2.id = id2 := hwf.2.2.1 (id2, t2) (lookupTask_mem hdb2)
      by_cases hii : id2 = id
      · left
        show lookupTask id (eraseTask t2.id db.allTasksByID) = none
        rw [ht2id, hii]
        exact lookupTask_eraseTask_self hwf.1
      · right
        unfold CanceledAt
        have he : (db.markTaskFinished t2).getTaskByID id = db.getTaskByID id :=
          markTaskFinished_lookup_ne (by rw [ht2id]; exact hii)
        rw [he]
        exact h
  | cancel id2 =>
    simp only [DBOp.apply]
    rcases hdb2 : db.getTaskByID id2 with _ | t2
    · right
      exact h
    · have ht2id : t2.id = id2 := hwf.2.2.1 (id2, t2) (lookupTask_mem hdb2)
      rcases hrs2 : t2.status.runStatus with _ | rs2
      · show (db.markTaskShouldCancel t2).getTaskByID id = none ∨
          CanceledAt (db.markTaskShouldCancel t2) id
        rw [markTaskShouldCancel_eq_finish hrs2]
        by_cases hii : id2 = id
        · left
          show lookupTask id (eraseTask t2.id db.allTasksByID) = none
          rw [ht2id, hii]
          exact lookupTask_eraseTask_self hwf.1
        · right
          unfold CanceledAt
          have he : (db.markTaskFinished t2).getTaskByID id = db.getTaskByID id :=
            markTaskFinished_lookup_ne (by rw [ht2id]; exact hii)
          rw [he]
          exact h
      · show (db.markTaskShouldCancel t2).getTaskByID id = none ∨
          CanceledAt (db.markTaskShouldCancel t2) id
        right
        rw [markTaskShouldCancel_eq_mutate hrs2]
        unfold CanceledAt
        show (lookupTask id (mutateTask t2.id (fun u => (u.markShouldCancel).1)
            db.allTasksByID)).map (fun u => u.status.runStatus.map (fun r2 => r2.wasCanceled))
          = some (some true)
        by_cases hit : id = t2.id
        · rw [← hit, lookupTask_mutateTask_self]
          have hL : lookupTask id db.allTasksByID = some t := hdb
          rw [hL]
          simp [Task.markShouldCancel, hrs]
        · rw [lookupTask_mutateTask_ne hit]
          exact h
  | cleanup timeout now =>
    simp only [DBOp.apply]
    rcases cleanupLoop_lookup_cases db.allTasksByID db id hwf.1 with hcase | hcase
    · left
      exact hcase
    · right
      unfold CanceledAt
      show ((cleanupLoop timeout now db.allTasksByID db).getTaskByID id).map
          (fun u => u.status.runStatus.map (fun r2 => r2.wasCanceled)) = some (some true)
      rw [hcase]
      exact h

/-- A canceled task stays canceled along any operation sequence during which
it is never absent from the database. -/
theorem canceled_sequence (ops : List DBOp) :
    ∀ (db : TaskDatabase) (id : TaskID), WF db → CountersOK db → CanceledAt db id →
      (∀ n, n ≤ ops.length → (applyOps (ops.take n) db).getTaskByID id ≠ none) →
      CanceledAt (applyOps ops db) id := by
  induction ops with
  | nil =>
    intro db id _ _ h _
    exact h
  | cons op rest ih =>
    intro db id hwf hc h hlive
    obtain ⟨hwf2, hc2, _⟩ := DBOp_step_preserves op db hwf hc
    rw [applyOps_cons]
    rcases canceled_step op db id hwf h with hnone | hcanc
    · exfalso
      apply hlive 1 (by simp)
      show (applyOps [op] db).getTaskByID id = none
      exact hnone
    · refine ih (op.apply db) id hwf2 hc2 hcanc ?_
      intro n hn
      have := hlive (n + 1) (by simp; omega)
      rw [List.take_succ_cons, applyOps_cons] at this
      exact this

instance (db : TaskDatabase) (id : TaskID) : Decidable (CanceledAt db id) := by
  unfold CanceledAt
  infer_instance

instance (db : TaskDatabase) : Decidable (CountersOK db) := by
  unfold CountersOK
  infer_instance

/-- **C9.**  Monotone cancellation: a live task whose `wasCanceled` flag is
set never has it cleared by any further sequence of database operations, as
long as the task remains in the database throughout (if it is removed, the
claim is vacuous for the remainder — its id may even be recycled by a new
task). -/
theorem C9_monotone_cancellation (ops : List DBOp) (db : TaskDatabase) (id : TaskID)
    (hwf : WF db) (hc : CountersOK db) (h : CanceledAt db id)
    (hlive : ∀ n, n ≤ ops.length →
      (applyOps (ops.take n) db).getTaskByID id ≠ none) :
    CanceledAt (applyOps ops db) id :=
  canceled_sequence ops db id hwf hc h hlive

/-- **C9 witness.** -/
theorem C9_monotone_cancellation_witness :
    CanceledAt (applyOps [DBOp.heartbeat 1 5, DBOp.cancel 1] cexCancelingDB) 1 :=
  C9_monotone_cancellation [DBOp.heartbeat 1 5, DBOp.cancel 1] cexCancelingDB 1
    (by decide) (by decide) (by decide) (by decide)

/-! ## Claim C2: the dispatch contract of takeTaskToRun -/

theorem takeTaskToRun_eq_none {db : TaskDatabase} {haveRes : List Resource} {now : Int}
    (hs : searchPending db haveRes db.pendingTasks none (-1) = none) :
    db.takeTaskToRun haveRes now = (db, none) := by
  unfold TaskDatabase.takeTaskToRun
  rw [hs]

theorem takeTaskToRun_eq_some {db : TaskDatabase} {haveRes : List Resource} {now : Int}
    {r : TaskID} {task : Task}
    (hs : searchPending db haveRes db.pendingTasks none (-1) = some r)
    (hlk : db.getTaskByID r = some task) :
    db.takeTaskToRun haveRes now =
      ({ db with
          pendingTasks := erasePending r db.pendingTasks
          allTasksByID := mutateTask r (fun u => u.markStarted now) db.allTasksByID
          stats := { db.stats with
                      numPending := db.stats.numPending - 1
                      numRunning := db.stats.numRunning + 1 } },
       some (task.markStarted now)) := by
  unfold TaskDatabase.takeTaskToRun
  rw [hs]
  dsimp only
  rw [hlk]

/-- Eliminator for a successful dispatch. -/
theorem takeTaskToRun_some_elim {db : TaskDatabase} {haveRes : List Resource}
    {now : Int} {t : Task} (hwf : WF db)
    (h : (db.takeTaskToRun haveRes now).2 = some t) :
    ∃ r task, searchPending db haveRes db.pendingTasks none (-1) = some r ∧
      db.getTaskByID r = some task ∧ t = task.markStarted now ∧ task.id = r ∧
      r ∈ db.pendingTasks := by
  rcases hs : searchPending db haveRes db.pendingTasks none (-1) with _ | r
  · rw [takeTaskToRun_eq_none hs] at h
    cases h
  · obtain ⟨sr, l₁, l₂, helig, hdecomp, _, _⟩ := searchPending_entry_spec hs
    have helig2 : (db.getTaskByID r).bind (fun u => scoreOf haveRes u.schedule)
        = some sr := helig
    obtain ⟨task, hlk, _⟩ := Option.bind_eq_some.mp helig2
    rw [takeTaskToRun_eq_some hs hlk] at h
    injection h with h
    refine ⟨r, task, rfl, hlk, h.symm, hwf.2.2.1 (r, task) (lookupTask_mem hlk), ?_⟩
    rw [hdecomp]
    exact List.mem_append_right _ (List.mem_cons_self _ _)

/-- The amended dispatch contract of `takeTaskToRun` for a well-formed,
counter-consistent database: the call returns nothing iff no pending task is
eligible; a returned task sits in the pending list with every earlier
eligible task scoring strictly less and — unless the search short-circuited
at a score `≥ 999/1000` — every later eligible task scoring no more; the
returned task has been started (fresh run status, not canceled) and removed
from the pending set, and no second call can return the same task. -/
def TakeSpec (db : TaskDatabase) (haveRes : List Resource) (now : Int) : Prop :=
  ((db.takeTaskToRun haveRes now).2 = none ↔
    ∀ id ∈ db.pendingTasks, eligScore db haveRes id = none) ∧
  (∀ t, (db.takeTaskToRun haveRes now).2 = some t →
    ∃ sr l₁ l₂,
      eligScore db haveRes t.id = some sr ∧
      db.pendingTasks = l₁ ++ t.id :: l₂ ∧
      (∀ j ∈ l₁, ∀ s', eligScore db haveRes j = some s' → s' < sr) ∧
      ((999 : ℚ)/1000 ≤ sr ∨
        ∀ j ∈ l₂, ∀ s', eligScore db haveRes j = some s' → s' ≤ sr) ∧
      t.status.runStatus
        = some { wasCanceled := false, startTime := now, heartbeatTime := now } ∧
      (db.takeTaskToRun haveRes now).1.getTaskByID t.id = some t ∧
      t.id ∉ (db.takeTaskToRun haveRes now).1.pendingTasks ∧
      (∀ haveRes2 now2,
        ((db.takeTaskToRun haveRes now).1.takeTaskToRun haveRes2 now2).2.map Task.id
          ≠ some t.id))

/-- **C2 (amended).** -/
theorem C2_takeTaskToRun_amended (db : TaskDatabase) (haveRes : List Resource)
    (now : Int) (hwf : WF db) (hc : CountersOK db) : TakeSpec db haveRes now := by
  constructor
  · rcases hs : searchPending db haveRes db.pendingTasks none (-1) with _ | r
    · rw [takeTaskToRun_eq_none hs]
      constructor
      · intro _
        exact searchPending_all_none_of_none db.pendingTasks (-1) (by norm_num) hs
      · intro _
        rfl
    · obtain ⟨sr, l₁, l₂, helig, hdecomp, _, _⟩ := searchPending_entry_spec hs
      have helig2 : (db.getTaskByID r).bind (fun u => scoreOf haveRes u.schedule)
          = some sr := helig
      obtain ⟨task, hlk, _⟩ := Option.bind_eq_some.mp helig2
      rw [takeTaskToRun_eq_some hs hlk]
      constructor
      · intro hcontra
        cases hcontra
      · intro hall
        exfalso
        have hmem : r ∈ db.pendingTasks := by
          rw [hdecomp]
          exact List.mem_append_right _ (List.mem_cons_self _ _)
        rw [hall r hmem] at helig
        cases helig
  · intro t ht
    obtain ⟨r, task, hs, hlk, hteq, htid, hmem⟩ := takeTaskToRun_some_elim hwf ht
    obtain ⟨sr, l₁, l₂, helig, hdecomp, hlt, hle⟩ := searchPending_entry_spec hs
    have htasknone : task.status.runStatus = none := by
      have h4 := hwf.2.2.2.1 r hmem
      rw [hlk] at h4
      simp at h4
      exact h4
    have htid2 : t.id = r := by
      rw [hteq, markStarted_id, htid]
    refine ⟨sr, l₁, l₂, by rw [htid2]; exact helig, by rw [htid2]; exact hdecomp,
      hlt, hle, ?_, ?_, ?_, ?_⟩
    · rw [hteq, markStarted_of_none htasknone]
    · rw [takeTaskToRun_eq_some hs hlk]
      show lookupTask t.id (mutateTask r (fun u => u.markStarted now) db.allTasksByID)
        = some t
      rw [htid2, lookupTask_mutateTask_self]
      have hL : lookupTask r db.allTasksByID = some task := hlk
      rw [hL, hteq]
      rfl
    · rw [takeTaskToRun_eq_some hs hlk]
      show t.id ∉ erasePending r db.pendingTasks
      rw [htid2]
      exact not_mem_erasePending_self hwf.2.1
    · intro haveRes2 now2 hcontra
      obtain ⟨hwf2, hc2, _⟩ := @takeTaskToRun_preserves db haveRes now ⟨hwf.1, hwf.2.1, hwf.2.2.1, hwf.2.2.2.1, hwf.2.2.2.2⟩ hc
      obtain ⟨t2, ht2, ht2id⟩ := Option.map_eq_some'.mp hcontra
      obtain ⟨r2, task2, _, _, ht2eq, ht2id2, hmem2⟩ := takeTaskToRun_some_elim hwf2 ht2
      have : r2 = t.id := by
        rw [← ht2id, ht2eq, markStarted_id, ht2id2]
      rw [this] at hmem2
      have hnotp : t.id ∉ (db.takeTaskToRun haveRes now).1.pendingTasks := by
        rw [takeTaskToRun_eq_some hs hlk]
        show t.id ∉ erasePending r db.pendingTasks
        rw [htid2]
        exact not_mem_erasePending_self hwf.2.1
      exact hnotp hmem2

theorem countP_replicate {α : Type} (p : α → Bool) (n : Nat) (a : α) :
    (List.replicate n a).countP p = if p a then n else 0 := by
  induction n with
  | zero => simp
  | succ n ih =>
    rw [List.replicate_succ, List.countP_cons, ih]
    by_cases hp : p a
    · simp [hp]
    · simp [hp]

/-- A pending task with 1000 optional resources of which 999 match: its
score is exactly the short-circuit threshold `999/1000`. -/
def cexBigTaskA : Task :=
  { id := 1, command := "A",
    schedule := { requiredResources := [],
                  optionalResources := List.replicate 999 "a" ++ ["z"] },
    status := { createTime := 0, runStatus := none } }

/-- A pending task with one matching optional resource: score `1`. -/
def cexBigTaskB : Task :=
  { id := 2, command := "B",
    schedule := { requiredResources := [], optionalResources := ["b"] },
    status := { createTime := 0, runStatus := none } }

def cexBigDB : TaskDatabase :=
  { allTasksByID := [(1, cexBigTaskA), (2, cexBigTaskB)], pendingTasks := [1, 2],
    stats := { numPending := 2, numRunning := 0, numCanceling := 0, numFinished := 0 } }

theorem cex_eligScore_A :
    eligScore cexBigDB ["a", "b"] 1 = some ((999 : ℚ)/1000) := by
  show ((cexBigDB.getTaskByID 1).bind fun t => scoreOf ["a", "b"] t.schedule)
    = some ((999 : ℚ)/1000)
  have hlk : cexBigDB.getTaskByID 1 = some cexBigTaskA := rfl
  rw [hlk]
  show scoreOf ["a", "b"] cexBigTaskA.schedule = some ((999 : ℚ)/1000)
  have e1 : cexBigTaskA.schedule.optionalResources = List.replicate 999 "a" ++ ["z"] := rfl
  have e2 : cexBigTaskA.schedule.requiredResources = ([] : List Resource) := rfl
  unfold scoreOf
  rw [e1, e2]
  have hcnt : (List.replicate 999 "a" ++ ["z"]).countP
      (fun r => decide (r ∈ (["a", "b"] : List Resource))) = 999 := by
    rw [List.countP_append, countP_replicate]
    norm_num
    exact ⟨by decide, by decide⟩
  have hlen : (List.replicate 999 "a" ++ ["z"]).length = 1000 := by
    simp
  rw [hcnt, hlen]
  norm_num [List.all_nil]

theorem cex_eligScore_B : eligScore cexBigDB ["a", "b"] 2 = some 1 := by
  show ((cexBigDB.getTaskByID 2).bind fun t => scoreOf ["a", "b"] t.schedule) = some 1
  have hlk : cexBigDB.getTaskByID 2 = some cexBigTaskB := rfl
  rw [hlk]
  show scoreOf ["a", "b"] cexBigTaskB.schedule = some 1
  have e1 : cexBigTaskB.schedule.optionalResources = ["b"] := rfl
  have e2 : cexBigTaskB.schedule.requiredResources = ([] : List Resource) := rfl
  unfold scoreOf
  rw [e1, e2]
  have hcnt : (["b"] : List Resource).countP
      (fun r => decide (r ∈ (["a", "b"] : List Resource))) = 1 := rfl
  have hlen : (["b"] : List Resource).length = 1 := rfl
  rw [hcnt, hlen]
  norm_num [List.all_nil]

theorem cex_search :
    searchPending cexBigDB ["a", "b"] [1, 2] none (-1) = some 1 := by
  rw [searchPending_cons_some cex_eligScore_A, if_pos (by norm_num), if_pos (by norm_num)]

/-- **C2 counterexample.**  With the worker holding `{a, b}` and the pending
population `[A, B]` where A has 1000 optional resources of which 999 match
(score exactly `999/1000`) and B scores `1`, `takeTaskToRun` short-circuits
at A and returns it, although the eligible pending task B has a strictly
higher score — so the returned task's score is *not* maximal among all
eligible pending tasks, refuting the claim as stated. -/
theorem C2_short_circuit_counterexample :
    (cexBigDB.takeTaskToRun ["a", "b"] 7).2.map Task.id = some 1 ∧
    eligScore cexBigDB ["a", "b"] 1 = some ((999 : ℚ)/1000) ∧
    eligScore cexBigDB ["a", "b"] 2 = some 1 ∧
    2 ∈ cexBigDB.pendingTasks ∧
    ¬ ((1 : ℚ) ≤ 999/1000) := by
  refine ⟨?_, cex_eligScore_A, cex_eligScore_B, by decide, by norm_num⟩
  rw [takeTaskToRun_eq_some cex_search rfl]
  rfl

/-- **C2 witness.** -/
theorem C2_takeTaskToRun_amended_witness : TakeSpec cexPendingDB ["GPU"] 3 :=
  C2_takeTaskToRun_amended cexPendingDB ["GPU"] 3 (by decide) (by decide)

/-! ## Claim C8: blob-codec round-trips

The Crust blob codec (`BlobStreamWriter` / `BlobStreamReader`) is not part
of the repository snapshot, so its primitive encodings are modelled from the
spec: fixed-width integers little-endian in their natural width, booleans
one byte (0 or 1), strings a `uint32` length followed by the raw bytes,
sequences a `uint64` count followed by the elements, optional values a
`bool` then the payload iff present.  The byte stream is a `List Nat` of
byte values; `std::time_t` fields travel as 64-bit two's complement.  The
composite serializers below follow the source
(`TaskSchedule::serialize/deserialize` and friends) field for field. -/

def putNatLE : Nat → Nat → List Nat
  | 0, _ => []
  | w+1, v => (v % 256) :: putNatLE w (v / 256)

def getNatLE : Nat → List Nat → Option (Nat × List Nat)
  | 0, bs => some (0, bs)
  | _+1, [] => none
  | w+1, b :: bs => (getNatLE w bs).map (fun p => (b + 256 * p.1, p.2))

def putU64 (n : Nat) : List Nat := putNatLE 8 n

def putU32 (n : Nat) : List Nat := putNatLE 4 n

def putBool (b : Bool) : List Nat := [if b then 1 else 0]

def putTime (t : Int) : List Nat := putNatLE 8 (t % (2^64)).toNat

def putString (s : String) : List Nat := putU32 s.length ++ s.data.map Char.toNat

def getBool : List Nat → Option (Bool × List Nat)
  | [] => none
  | b :: bs => if b = 0 then some (false, bs) else if b = 1 then some (true, bs) else none

def getTime (bs : List Nat) : Option (Int × List Nat) :=
  (getNatLE 8 bs).map
    (fun p => (if p.1 < 2^63 then (p.1 : Int) else (p.1 : Int) - 2^64, p.2))

def getChars : Nat → List Nat → Option (List Char × List Nat)
  | 0, bs => some ([], bs)
  | _+1, [] => none
  | n+1, b :: bs => (getChars n bs).map (fun p => (Char.ofNat b :: p.1, p.2))

def getString (bs : List Nat) : Option (String × List Nat) :=
  (getNatLE 4 bs).bind fun p => (getChars p.1 p.2).map (fun q => (String.mk q.1, q.2))

def getList {α : Type} (get1 : List Nat → Option (α × List Nat)) :
    Nat → List Nat → Option (List α × List Nat)
  | 0, bs => some ([], bs)
  | n+1, bs => (get1 bs).bind fun p =>
      (getList get1 n p.2).map (fun q => (p.1 :: q.1, q.2))

/-- `TaskSchedule::serialize`: required count and strings, then optional
count and strings. -/
def TaskSchedule.serialize (s : TaskSchedule) : List Nat :=
  (putU64 s.requiredResources.length ++ (s.requiredResources.map putString).flatten) ++
  (putU64 s.optionalResources.length ++ (s.optionalResources.map putString).flatten)

/-- `TaskSchedule::deserialize`. -/
def TaskSchedule.deserialize (bs : List Nat) : Option (TaskSchedule × List Nat) :=
  (getNatLE 8 bs).bind fun p =>
  (getList getString p.1 p.2).bind fun q =>
  (getNatLE 8 q.2).bind fun p2 =>
  (getList getString p2.1 p2.2).map fun q2 =>
  ({ requiredResources := q.1, optionalResources := q2.1 }, q2.2)

/-- `TaskRunStatus::serialize`: `wasCanceled`, `startTime`, `heartbeatTime`. -/
def TaskRunStatus.serialize (rs : TaskRunStatus) : List Nat :=
  putBool rs.wasCanceled ++ (putTime rs.startTime ++ putTime rs.heartbeatTime)

/-- `TaskRunStatus::deserialize`. -/
def TaskRunStatus.deserialize (bs : List Nat) : Option (TaskRunStatus × List Nat) :=
  (getBool bs).bind fun p =>
  (getTime p.2).bind fun q =>
  (getTime q.2).map fun r =>
  ({ wasCanceled := p.1, startTime := q.1, heartbeatTime := r.1 }, r.2)

/-- `TaskStatus::serialize`: `createTime`, then a presence flag and the run
status iff present. -/
def TaskStatus.serialize (st : TaskStatus) : List Nat :=
  putTime st.createTime ++
  (match st.runStatus with
   | some rs => putBool true ++ rs.serialize
   | none => putBool false)

/-- `TaskStatus::deserialize`. -/
def TaskStatus.deserialize (bs : List Nat) : Option (TaskStatus × List Nat) :=
  (getTime bs).bind fun p =>
  (getBool p.2).bind fun q =>
  if q.1 then
    (TaskRunStatus.deserialize q.2).map fun r =>
      ({ createTime := p.1, runStatus := some r.1 }, r.2)
  else
    some ({ createTime := p.1, runStatus := none }, q.2)

/-- `TaskCreateInfo::serialize`: the command, then the schedule. -/
def TaskCreateInfo.serialize (info : TaskCreateInfo) : List Nat :=
  putString info.command ++ TaskSchedule.serialize info.schedule

/-- `TaskCreateInfo::deserialize`. -/
def TaskCreateInfo.deserialize (bs : List Nat) : Option (TaskCreateInfo × List Nat) :=
  (getString bs).bind fun p =>
  (TaskSchedule.deserialize p.2).map fun q =>
  ({ command := p.1, schedule := q.1 }, q.2)

/-! ### Round-trip lemmas for the primitives -/

theorem getNatLE_putNatLE :
    ∀ (w v : Nat), v < 256^w → ∀ rest,
      getNatLE w (putNatLE w v ++ rest) = some (v, rest) := by
  intro w
  induction w with
  | zero =>
    intro v hv rest
    interval_cases v
    rfl
  | succ w ih =>
    intro v hv rest
    have hdv : v / 256 < 256^w := by
      rw [Nat.div_lt_iff_lt_mul (by norm_num)]
      calc v < 256^(w+1) := hv
        _ = 256^w * 256 := by ring
    show (getNatLE w (putNatLE w (v / 256) ++ rest)).map _ = _
    rw [ih (v / 256) hdv rest]
    simp only [Option.map_some']
    rw [Nat.mod_add_div]

theorem getBool_putBool (b : Bool) (rest : List Nat) :
    getBool (putBool b ++ rest) = some (b, rest) := by
  cases b <;> rfl

theorem getTime_putTime {t : Int} (h1 : -(2^63) ≤ t) (h2 : t < 2^63)
    (rest : List Nat) : getTime (putTime t ++ rest) = some (t, rest) := by
  unfold getTime putTime
  have hlt : (t % (2^64)).toNat < 256^8 := by
    have e : (256:Nat)^8 = 2^64 := by norm_num
    rw [e]
    omega
  rw [getNatLE_putNatLE 8 _ hlt rest]
  simp only [Option.map_some']
  have hval : (if (t % (2^64)).toNat < 2^63 then ((t % (2^64)).toNat : Int)
      else ((t % (2^64)).toNat : Int) - 2^64) = t := by
    by_cases hx : (t % (2^64)).toNat < 2^63
    · rw [if_pos hx]
      omega
    · rw [if_neg hx]
      omega
  rw [hval]

theorem getChars_append (cs : List Char) (rest : List Nat) :
    getChars cs.length (cs.map Char.toNat ++ rest) = some (cs, rest) := by
  induction cs with
  | nil => rfl
  | cons c cs ih =>
    show (getChars cs.length (cs.map Char.toNat ++ rest)).map _ = _
    rw [ih]
    simp only [Option.map_some']
    rw [Char.ofNat_toNat]

theorem getString_putString {s : String} (h : s.length < 2^32) (rest : List Nat) :
    getString (putString s ++ rest) = some (s, rest) := by
  unfold getString putString putU32
  have hlen : s.length < 256^4 := by
    have e : (256:Nat)^4 = 2^32 := by norm_num
    rw [e]
    exact h
  rw [List.append_assoc, getNatLE_putNatLE 4 _ hlen]
  simp only [Option.some_bind]
  have e2 : s.length = s.data.length := rfl
  rw [e2, getChars_append]
  rfl

theorem getList_roundtrip {α : Type} {put1 : α → List Nat}
    {get1 : List Nat → Option (α × List Nat)} :
    ∀ (l : List α), (∀ a ∈ l, ∀ r, get1 (put1 a ++ r) = some (a, r)) →
      ∀ rest, getList get1 l.length ((l.map put1).flatten ++ rest) = some (l, rest) := by
  intro l
  induction l with
  | nil =>
    intro _ rest
    rfl
  | cons a l ih =>
    intro h rest
    show (get1 ((put1 a :: l.map put1).flatten ++ rest)).bind _ = _
    rw [List.flatten_cons, List.append_assoc, h a (List.mem_cons_self _ _)]
    simp only [Option.some_bind]
    rw [ih (fun b hb => h b (List.mem_cons_of_mem _ hb)) rest]
    rfl

/-! ### Boundedness side conditions for the fixed-width fields -/

def strOK (s : String) : Prop := s.length < 2^32

def timeOK (t : Int) : Prop := -(2^63) ≤ t ∧ t < 2^63

def schedOK (s : TaskSchedule) : Prop :=
  s.requiredResources.length < 2^64 ∧ s.optionalResources.length < 2^64 ∧
  (∀ r ∈ s.requiredResources, strOK r) ∧ (∀ r ∈ s.optionalResources, strOK r)

def runStatusOK : Option TaskRunStatus → Prop
  | some rs => timeOK rs.startTime ∧ timeOK rs.heartbeatTime
  | none => True

def statusOK (st : TaskStatus) : Prop := timeOK st.createTime ∧ runStatusOK st.runStatus

def infoOK (info : TaskCreateInfo) : Prop := strOK info.command ∧ schedOK info.schedule

instance (s : String) : Decidable (strOK s) := by
  unfold strOK
  infer_instance

instance (t : Int) : Decidable (timeOK t) := by
  unfold timeOK
  infer_instance

instance (s : TaskSchedule) : Decidable (schedOK s) := by
  unfold schedOK
  infer_instance

instance (o : Option TaskRunStatus) : Decidable (runStatusOK o) := by
  cases o <;> unfold runStatusOK <;> infer_instance

instance (st : TaskStatus) : Decidable (statusOK st) := by
  unfold statusOK
  infer_instance

instance (info : TaskCreateInfo) : Decidable (infoOK info) := by
  unfold infoOK
  infer_instance

theorem TaskSchedule_roundtrip {s : TaskSchedule} (h : schedOK s) (rest : List Nat) :
    TaskSchedule.deserialize (TaskSchedule.serialize s ++ rest) = some (s, rest) := by
  obtain ⟨req, opt⟩ := s
  obtain ⟨hr, ho, hrs, hos⟩ := h
  have e : (256:Nat)^8 = 2^64 := by norm_num
  unfold TaskSchedule.serialize TaskSchedule.deserialize putU64
  dsimp only at hr ho hrs hos ⊢
  simp only [List.append_assoc]
  rw [getNatLE_putNatLE 8 req.length (by rw [e]; exact hr)]
  simp only [Option.some_bind]
  rw [getList_roundtrip req (fun a ha r => getString_putString (hrs a ha) r)]
  simp only [Option.some_bind]
  rw [getNatLE_putNatLE 8 opt.length (by rw [e]; exact ho)]
  simp only [Option.some_bind]
  rw [getList_roundtrip opt (fun a ha r => getString_putString (hos a ha) r)]
  rfl

theorem TaskRunStatus_roundtrip {rs : TaskRunStatus}
    (h1 : timeOK rs.startTime) (h2 : timeOK rs.heartbeatTime) (rest : List Nat) :
    TaskRunStatus.deserialize (TaskRunStatus.serialize rs ++ rest) = some (rs, rest) := by
  obtain ⟨wc, st, hb⟩ := rs
  unfold TaskRunStatus.serialize TaskRunStatus.deserialize
  dsimp only at h1 h2 ⊢
  simp only [List.append_assoc]
  rw [getBool_putBool]
  simp only [Option.some_bind]
  rw [getTime_putTime h1.1 h1.2]
  simp only [Option.some_bind]
  rw [getTime_putTime h2.1 h2.2]
  rfl

theorem TaskStatus_roundtrip {st : TaskStatus} (h : statusOK st) (rest : List Nat) :
    TaskStatus.deserialize (TaskStatus.serialize st ++ rest) = some (st, rest) := by
  obtain ⟨ct, ors⟩ := st
  obtain ⟨hct, hors⟩ := h
  unfold TaskStatus.serialize TaskStatus.deserialize
  dsimp only at hct hors ⊢
  rcases ors with _ | rs
  · simp only [List.append_assoc]
    rw [getTime_putTime hct.1 hct.2]
    simp only [Option.some_bind]
    rw [getBool_putBool]
    rfl
  · obtain ⟨h1, h2⟩ : timeOK rs.startTime ∧ timeOK rs.heartbeatTime := hors
    simp only [List.append_assoc]
    rw [getTime_putTime hct.1 hct.2]
    simp only [Option.some_bind]
    rw [getBool_putBool]
    simp only [Option.some_bind, if_pos]
    rw [TaskRunStatus_roundtrip h1 h2]
    rfl

theorem TaskCreateInfo_roundtrip {info : TaskCreateInfo} (h : infoOK info)
    (rest : List Nat) :
    TaskCreateInfo.deserialize (TaskCreateInfo.serialize info ++ rest)
      = some (info, rest) := by
  obtain ⟨cmd, sched⟩ := info
  obtain ⟨hc, hs⟩ := h
  unfold TaskCreateInfo.serialize TaskCreateInfo.deserialize
  dsimp only at hc hs ⊢
  rw [List.append_assoc, getString_putString hc]
  simp only [Option.some_bind]
  rw [TaskSchedule_roundtrip hs]
  rfl

/-- Round-trip of the three serialized composites. -/
def RoundTripSpec (sched : TaskSchedule) (st : TaskStatus) (info : TaskCreateInfo) : Prop :=
  (∀ rest, TaskSchedule.deserialize (TaskSchedule.serialize sched ++ rest)
    = some (sched, rest)) ∧
  (∀ rest, TaskStatus.deserialize (TaskStatus.serialize st ++ rest) = some (st, rest)) ∧
  (∀ rest, TaskCreateInfo.deserialize (TaskCreateInfo.serialize info ++ rest)
    = some (info, rest))

/-- **C8.**  Serialization round-trip: decoding the bytes produced by the
serializers succeeds and reconstructs the original `TaskSchedule`,
`TaskStatus` (including the optional run status with `wasCanceled`,
`startTime`, `heartbeatTime`) and `TaskCreateInfo`, for every value whose
counts, string lengths and times fit the encoded fixed widths. -/
theorem C8_serialization_round_trip (sched : TaskSchedule) (st : TaskStatus)
    (info : TaskCreateInfo) (h1 : schedOK sched) (h2 : statusOK st)
    (h3 : infoOK info) : RoundTripSpec sched st info :=
  ⟨fun rest => TaskSchedule_roundtrip h1 rest,
   fun rest => TaskStatus_roundtrip h2 rest,
   fun rest => TaskCreateInfo_roundtrip h3 rest⟩

def cexSched : TaskSchedule :=
  { requiredResources := ["GPU"], optionalResources := ["data-X", "data-Y"] }

def cexStatus : TaskStatus :=
  { createTime := 42, runStatus := some { wasCanceled := true, startTime := -3, heartbeatTime := 99 } }

def cexInfo : TaskCreateInfo := { command := "echo hi", schedule := cexSched }

/-- **C8 witness.** -/
theorem C8_serialization_round_trip_witness : RoundTripSpec cexSched cexStatus cexInfo :=
  C8_serialization_round_trip cexSched cexStatus cexInfo (by decide) (by decide) (by decide)

end Kickoff
